import Mathlib

/-!
Shallow embedding of `src/pmap.rs` (RVirt shadow page-table module).

Machine integers (`u64`) are modelled as `Nat`, with an explicit `% 2^64`
wherever the Rust code may wrap.  Memory is a function from (byte) physical
addresses to 64-bit words; all reads and writes in the source are
8-byte-aligned word accesses at explicit addresses, so a word map indexed by
the byte address of the word is a faithful model.
-/

/-- `2^64`, the modulus of `u64` arithmetic. -/
def twoPow64 : Nat := 2 ^ 64

def PAGE_SIZE : Nat := 4096

def HPAGE_SIZE : Nat := 2 * 1024 * 1024

def PAGE_TABLE_SHIFT : Nat := 9

def PTE_VALID : Nat := 0x1

def PTE_READ : Nat := 0x2

def PTE_WRITE : Nat := 0x4

def PTE_EXECUTE : Nat := 0x8

def PTE_USER : Nat := 0x10

def PTE_GLOBAL : Nat := 0x20

def PTE_ACCESSED : Nat := 0x40

def PTE_DIRTY : Nat := 0x80

def PTE_RSV_MASK : Nat := 0x300

def PTE_AD : Nat := PTE_ACCESSED ||| PTE_DIRTY

def PTE_RWXV : Nat := PTE_READ ||| PTE_WRITE ||| PTE_EXECUTE ||| PTE_VALID

def DIRECT_MAP_PT_INDEX : Nat := 0xf80

/-- `DIRECT_MAP_PT_INDEX << 27 | ((!0) << 39)` in `u64` arithmetic. -/
def DIRECT_MAP_OFFSET : Nat :=
  (DIRECT_MAP_PT_INDEX <<< 27) ||| (((twoPow64 - 1) <<< 39) % twoPow64)

def DIRECT_MAP_PAGES : Nat := 4

def NULL_PAGE_PTR : Nat := 2

/-- `is_sv39` from the source: whether `va` is a sign-extended 39-bit address. -/
def is_sv39 (va : Nat) : Bool :=
  let shifted := va >>> 38
  shifted == 0 || shifted == 0x3ffffff

/-- `is_sv48` from the source: whether `va` is a sign-extended 48-bit address. -/
def is_sv48 (va : Nat) : Bool :=
  let shifted := va >>> 47
  shifted == 0 || shifted == 0x1ffff

/-- `pa2va` from the source: `pa + DIRECT_MAP_OFFSET` with `u64` wrap-around. -/
def pa2va (pa : Nat) : Nat := (pa + DIRECT_MAP_OFFSET) % twoPow64

/-- The two assertions guarding `va2pa` in the source. -/
def va2paAssertsHold (va : Nat) : Prop :=
  DIRECT_MAP_OFFSET ≤ va ∧ va < DIRECT_MAP_OFFSET + (DIRECT_MAP_PAGES <<< 30)

instance (va : Nat) : Decidable (va2paAssertsHold va) := by
  unfold va2paAssertsHold; infer_instance

/-- `va2pa` from the source: asserts the address lies in the direct-map window
and subtracts the offset.  A failed assertion is modelled as `none`. -/
def va2pa (va : Nat) : Option Nat :=
  if va2paAssertsHold va then some (va - DIRECT_MAP_OFFSET) else none

theorem direct_map_offset_value : DIRECT_MAP_OFFSET = 0xFFFFFFFC00000000 := by
  decide

/-- C10: the direct-map conversions are mutually inverse on their domains:
for every physical address `pa < DIRECT_MAP_PAGES <<< 30` (4 GiB),
`va2pa (pa2va pa) = pa` (in particular both assertions inside `va2pa` hold),
and conversely for every virtual address in the direct-map window,
`pa2va` of `va2pa` gives back the address. -/
theorem pa2va_va2pa_inverse (pa va : Nat)
    (hpa : pa < DIRECT_MAP_PAGES <<< 30)
    (hva : DIRECT_MAP_OFFSET ≤ va ∧ va < DIRECT_MAP_OFFSET + (DIRECT_MAP_PAGES <<< 30)) :
    va2pa (pa2va pa) = some pa ∧
      va2paAssertsHold (pa2va pa) ∧
      (va2pa va).map pa2va = some va := by
  have hoff : DIRECT_MAP_OFFSET = 0xFFFFFFFC00000000 := direct_map_offset_value
  have hpages : DIRECT_MAP_PAGES <<< 30 = 0x100000000 := by decide
  have h64 : twoPow64 = 0x10000000000000000 := by decide
  rw [hpages] at hpa hva
  have h1 : pa2va pa = pa + DIRECT_MAP_OFFSET := by
    unfold pa2va
    apply Nat.mod_eq_of_lt
    omega
  have hAss : va2paAssertsHold (pa2va pa) := by
    unfold va2paAssertsHold
    rw [h1, hpages]
    omega
  refine ⟨?_, hAss, ?_⟩
  · unfold va2pa
    rw [if_pos hAss]
    simp only [Option.some.injEq]
    rw [h1]
    omega
  · have hAss2 : va2paAssertsHold va := by
      unfold va2paAssertsHold; rw [hpages]; omega
    unfold va2pa
    rw [if_pos hAss2]
    show some (pa2va (va - DIRECT_MAP_OFFSET)) = some va
    simp only [Option.some.injEq]
    unfold pa2va
    rw [Nat.mod_eq_of_lt]
    · omega
    · omega

theorem pa2va_va2pa_inverse_witness :
    va2pa (pa2va 0x80000000) = some 0x80000000 ∧
      va2paAssertsHold (pa2va 0x80000000) ∧
      (va2pa 0xFFFFFFFC80000000).map pa2va = some 0xFFFFFFFC80000000 :=
  pa2va_va2pa_inverse 0x80000000 0xFFFFFFFC80000000 (by decide)
    (by constructor <;> decide)

/-- Modelled from the spec: the backing region accessor lives in
`memory_region.rs`, which is not among the sources.  A `MemoryRegion` is a
byte-addressable physical memory window (base, length) with bounds-checked
word reads; `contents` gives the 64-bit word stored at each byte address. -/
structure MemoryRegion where
  base : Nat
  len : Nat
  contents : Nat → Nat

/-- Modelled from the spec: `get(physical_address) -> Option<u64>`, a
bounds-checked read returning `some` word only when the whole 8-byte word
lies inside the window, and `none` otherwise. -/
def MemoryRegion.get (r : MemoryRegion) (pa : Nat) : Option Nat :=
  if r.base ≤ pa ∧ pa + 8 ≤ r.base + r.len then some (r.contents pa % twoPow64)
  else none

/-- `AddressTranslation` from the source. -/
structure AddressTranslation where
  pte_value : Nat
  pte_addr : Nat
  guest_pa : Nat
deriving DecidableEq

/-- `(addr >> (30 - 9 * level)) & 0x1ff`: the 9-bit table index at a level. -/
def vpnIndex (addr level : Nat) : Nat := (addr >>> (30 - 9 * level)) &&& 0x1ff

/-- `page_table + pte_index * 8` in `u64` arithmetic: the physical address of
the entry fetched at a level of the walk. -/
def levelPteAddr (page_table addr level : Nat) : Nat :=
  (page_table + vpnIndex addr level * 8) % twoPow64

/-- `(pte >> 10) << 12` in `u64` arithmetic: the child table base encoded by a
pointer entry. -/
def pteChild (pte : Nat) : Nat := ((pte >>> 10) <<< 12) % twoPow64

/-- The abort test of the guest walk: entry invalid, or WRITE without READ. -/
def badPTE (pte : Nat) : Prop :=
  pte &&& PTE_VALID = 0 ∨ (pte &&& PTE_WRITE ≠ 0 ∧ pte &&& PTE_READ = 0)

instance (pte : Nat) : Decidable (badPTE pte) := by
  unfold badPTE; infer_instance

/-- A guest leaf entry: passes the abort test and has READ or EXECUTE set. -/
def leafPTE (pte : Nat) : Prop :=
  ¬ badPTE pte ∧ pte &&& (PTE_READ ||| PTE_EXECUTE) ≠ 0

instance (pte : Nat) : Decidable (leafPTE pte) := by
  unfold leafPTE; infer_instance

/-- A guest pointer (non-leaf) entry the walk descends through: passes the
abort test and has neither READ nor EXECUTE (hence, having passed the abort
test, no WRITE either). -/
def pointerPTE (pte : Nat) : Prop :=
  ¬ badPTE pte ∧ pte &&& (PTE_READ ||| PTE_EXECUTE) = 0

instance (pte : Nat) : Decidable (pointerPTE pte) := by
  unfold pointerPTE; infer_instance

/-- The per-level decode of the guest physical address of a leaf entry, from
the `match level` in `translate_guest_address` (`u64` arithmetic). -/
def guestPaDecode (pte addr level : Nat) : Nat :=
  if level = 2 then (((pte >>> 10) <<< 12) % twoPow64) ||| (addr &&& 0xfff)
  else if level = 1 then (((pte >>> 19) <<< 21) % twoPow64) ||| (addr &&& 0x1fffff)
  else (((pte >>> 28) <<< 30) % twoPow64) ||| (addr &&& 0x3fffffff)

/-- The `for level in 0..3` loop of `translate_guest_address`, by remaining
iterations (`fuel = 3 - level`). -/
def translateLoop (gm : MemoryRegion) (addr : Nat) : Nat → Nat → Option AddressTranslation
  | _page_table, 0 => none
  | page_table, fuel + 1 =>
    let level := 2 - fuel
    let pte_addr := levelPteAddr page_table addr level
    match gm.get pte_addr with
    | none => none
    | some pte =>
      if badPTE pte then none
      else if pte &&& (PTE_READ ||| PTE_EXECUTE) ≠ 0 then
        some { pte_value := pte, pte_addr := pte_addr,
               guest_pa := guestPaDecode pte addr level }
      else
        translateLoop gm addr (pteChild pte) fuel

/-- `translate_guest_address` from the source: walk the guest's page tables,
reading only through the bounds-checked `get`. -/
def translate_guest_address (gm : MemoryRegion) (root_page_table addr : Nat) :
    Option AddressTranslation :=
  if is_sv39 addr = false ∨ root_page_table % PAGE_SIZE ≠ 0 then none
  else translateLoop gm addr root_page_table 3

theorem translateLoop_three (gm : MemoryRegion) (addr pt : Nat) :
    translateLoop gm addr pt 3 =
      match gm.get (levelPteAddr pt addr 0) with
      | none => none
      | some pte =>
        if badPTE pte then none
        else if pte &&& (PTE_READ ||| PTE_EXECUTE) ≠ 0 then
          some { pte_value := pte, pte_addr := levelPteAddr pt addr 0,
                 guest_pa := guestPaDecode pte addr 0 }
        else translateLoop gm addr (pteChild pte) 2 := rfl

theorem translateLoop_two (gm : MemoryRegion) (addr pt : Nat) :
    translateLoop gm addr pt 2 =
      match gm.get (levelPteAddr pt addr 1) with
      | none => none
      | some pte =>
        if badPTE pte then none
        else if pte &&& (PTE_READ ||| PTE_EXECUTE) ≠ 0 then
          some { pte_value := pte, pte_addr := levelPteAddr pt addr 1,
                 guest_pa := guestPaDecode pte addr 1 }
        else translateLoop gm addr (pteChild pte) 1 := rfl

theorem translateLoop_one (gm : MemoryRegion) (addr pt : Nat) :
    translateLoop gm addr pt 1 =
      match gm.get (levelPteAddr pt addr 2) with
      | none => none
      | some pte =>
        if badPTE pte then none
        else if pte &&& (PTE_READ ||| PTE_EXECUTE) ≠ 0 then
          some { pte_value := pte, pte_addr := levelPteAddr pt addr 2,
                 guest_pa := guestPaDecode pte addr 2 }
        else translateLoop gm addr (pteChild pte) 0 := rfl

/-- C1: `translate_guest_address` reads guest memory only through the
bounds-checked `MemoryRegion.get` (and is a total function, so a failed bounds
check yields "no translation", never a fault), and it returns `none` whenever:
the address is not a sign-extended Sv39 address; the root is not 4096-byte
aligned; the entry fetched at any of the three levels lies outside the guest
region (`get` answers `none`); a fetched entry is invalid or has WRITE set
without READ; or all three levels are traversed without reaching a leaf. -/
theorem translate_guest_address_none_cases (gm : MemoryRegion)
    (root addr p0 p1 p2 : Nat) :
    (is_sv39 addr = false → translate_guest_address gm root addr = none) ∧
    (root % PAGE_SIZE ≠ 0 → translate_guest_address gm root addr = none) ∧
    (gm.get (levelPteAddr root addr 0) = none →
      translate_guest_address gm root addr = none) ∧
    (gm.get (levelPteAddr root addr 0) = some p0 → badPTE p0 →
      translate_guest_address gm root addr = none) ∧
    (gm.get (levelPteAddr root addr 0) = some p0 → pointerPTE p0 →
      gm.get (levelPteAddr (pteChild p0) addr 1) = none →
      translate_guest_address gm root addr = none) ∧
    (gm.get (levelPteAddr root addr 0) = some p0 → pointerPTE p0 →
      gm.get (levelPteAddr (pteChild p0) addr 1) = some p1 → badPTE p1 →
      translate_guest_address gm root addr = none) ∧
    (gm.get (levelPteAddr root addr 0) = some p0 → pointerPTE p0 →
      gm.get (levelPteAddr (pteChild p0) addr 1) = some p1 → pointerPTE p1 →
      gm.get (levelPteAddr (pteChild p1) addr 2) = none →
      translate_guest_address gm root addr = none) ∧
    (gm.get (levelPteAddr root addr 0) = some p0 → pointerPTE p0 →
      gm.get (levelPteAddr (pteChild p0) addr 1) = some p1 → pointerPTE p1 →
      gm.get (levelPteAddr (pteChild p1) addr 2) = some p2 → badPTE p2 →
      translate_guest_address gm root addr = none) ∧
    (gm.get (levelPteAddr root addr 0) = some p0 → pointerPTE p0 →
      gm.get (levelPteAddr (pteChild p0) addr 1) = some p1 → pointerPTE p1 →
      gm.get (levelPteAddr (pteChild p1) addr 2) = some p2 → pointerPTE p2 →
      translate_guest_address gm root addr = none) := by
  refine ⟨?_, ?_, ?_, ?_, ?_, ?_, ?_, ?_, ?_⟩
  · intro h
    unfold translate_guest_address
    rw [if_pos (Or.inl h)]
  · intro h
    unfold translate_guest_address
    rw [if_pos (Or.inr h)]
  · intro h0
    unfold translate_guest_address
    by_cases hg : is_sv39 addr = false ∨ root % PAGE_SIZE ≠ 0
    · rw [if_pos hg]
    · rw [if_neg hg, translateLoop_three]
      simp only [h0]
  · intro h0 hbad
    unfold translate_guest_address
    by_cases hg : is_sv39 addr = false ∨ root % PAGE_SIZE ≠ 0
    · rw [if_pos hg]
    · rw [if_neg hg, translateLoop_three]
      simp only [h0]
      rw [if_pos hbad]
  · intro h0 hp0 h1
    unfold translate_guest_address
    by_cases hg : is_sv39 addr = false ∨ root % PAGE_SIZE ≠ 0
    · rw [if_pos hg]
    · rw [if_neg hg, translateLoop_three]
      simp only [h0]
      rw [if_neg hp0.1, if_neg (fun h => h hp0.2), translateLoop_two]
      simp only [h1]
  · intro h0 hp0 h1 hbad
    unfold translate_guest_address
    by_cases hg : is_sv39 addr = false ∨ root % PAGE_SIZE ≠ 0
    · rw [if_pos hg]
    · rw [if_neg hg, translateLoop_three]
      simp only [h0]
      rw [if_neg hp0.1, if_neg (fun h => h hp0.2), translateLoop_two]
      simp only [h1]
      rw [if_pos hbad]
  · intro h0 hp0 h1 hp1 h2
    unfold translate_guest_address
    by_cases hg : is_sv39 addr = false ∨ root % PAGE_SIZE ≠ 0
    · rw [if_pos hg]
    · rw [if_neg hg, translateLoop_three]
      simp only [h0]
      rw [if_neg hp0.1, if_neg (fun h => h hp0.2), translateLoop_two]
      simp only [h1]
      rw [if_neg hp1.1, if_neg (fun h => h hp1.2), translateLoop_one]
      simp only [h2]
  · intro h0 hp0 h1 hp1 h2 hbad
    unfold translate_guest_address
    by_cases hg : is_sv39 addr = false ∨ root % PAGE_SIZE ≠ 0
    · rw [if_pos hg]
    · rw [if_neg hg, translateLoop_three]
      simp only [h0]
      rw [if_neg hp0.1, if_neg (fun h => h hp0.2), translateLoop_two]
      simp only [h1]
      rw [if_neg hp1.1, if_neg (fun h => h hp1.2), translateLoop_one]
      simp only [h2]
      rw [if_pos hbad]
  · intro h0 hp0 h1 hp1 h2 hp2
    unfold translate_guest_address
    by_cases hg : is_sv39 addr = false ∨ root % PAGE_SIZE ≠ 0
    · rw [if_pos hg]
    · rw [if_neg hg, translateLoop_three]
      simp only [h0]
      rw [if_neg hp0.1, if_neg (fun h => h hp0.2), translateLoop_two]
      simp only [h1]
      rw [if_neg hp1.1, if_neg (fun h => h hp1.2), translateLoop_one]
      simp only [h2]
      rw [if_neg hp2.1, if_neg (fun h => h hp2.2)]
      rfl

/-- A tiny concrete guest region used by witnesses: four pages at base 0,
holding a root whose slot 0 points to a level-1 table at 0x1000, whose slot 0
points to a level-2 table at 0x2000, whose slot 0 is a readable leaf mapping
physical page 0x3000. -/
def gmW : MemoryRegion :=
  { base := 0, len := 0x4000,
    contents := fun a =>
      if a = 0 then 0x401
      else if a = 0x1000 then 0x801
      else if a = 0x2000 then 0xC03
      else 0 }

theorem translate_guest_address_none_cases_witness :
    translate_guest_address gmW 5 0 = none :=
  (translate_guest_address_none_cases gmW 5 0 0 0 0).2.1 (by decide)

/-- C2: when the walk reaches a leaf entry (READ or EXECUTE set, having passed
the invalid / WRITE-without-READ test) at level L, `translate_guest_address`
returns `some` translation whose `pte_value` is the fetched entry and whose
`guest_pa` is decoded by the terminating level: level 2 gives
`((pte >> 10) << 12) | (addr & 0xfff)`; level 1 gives the 2 MiB-aligned base
`(pte >> 19) << 21` or-ed with the low 21 bits; level 0 gives the 1 GiB base
`(pte >> 28) << 30` or-ed with the low 30 bits. -/
theorem translate_guest_address_leaf_decode (gm : MemoryRegion)
    (root addr p0 p1 p2 : Nat)
    (hsv : is_sv39 addr = true) (hroot : root % PAGE_SIZE = 0) :
    (gm.get (levelPteAddr root addr 0) = some p0 → leafPTE p0 →
      translate_guest_address gm root addr =
        some { pte_value := p0, pte_addr := levelPteAddr root addr 0,
               guest_pa := (((p0 >>> 28) <<< 30) % twoPow64) ||| (addr &&& 0x3fffffff) }) ∧
    (gm.get (levelPteAddr root addr 0) = some p0 → pointerPTE p0 →
      gm.get (levelPteAddr (pteChild p0) addr 1) = some p1 → leafPTE p1 →
      translate_guest_address gm root addr =
        some { pte_value := p1, pte_addr := levelPteAddr (pteChild p0) addr 1,
               guest_pa := (((p1 >>> 19) <<< 21) % twoPow64) ||| (addr &&& 0x1fffff) }) ∧
    (gm.get (levelPteAddr root addr 0) = some p0 → pointerPTE p0 →
      gm.get (levelPteAddr (pteChild p0) addr 1) = some p1 → pointerPTE p1 →
      gm.get (levelPteAddr (pteChild p1) addr 2) = some p2 → leafPTE p2 →
      translate_guest_address gm root addr =
        some { pte_value := p2, pte_addr := levelPteAddr (pteChild p1) addr 2,
               guest_pa := (((p2 >>> 10) <<< 12) % twoPow64) ||| (addr &&& 0xfff) }) := by
  have hg : ¬ (is_sv39 addr = false ∨ root % PAGE_SIZE ≠ 0) := by
    rintro (h | h)
    · rw [hsv] at h; exact Bool.noConfusion h
    · exact h hroot
  refine ⟨?_, ?_, ?_⟩
  · intro h0 hl
    unfold translate_guest_address
    rw [if_neg hg, translateLoop_three]
    simp only [h0]
    rw [if_neg hl.1, if_pos hl.2]
    simp [guestPaDecode]
  · intro h0 hp0 h1 hl
    unfold translate_guest_address
    rw [if_neg hg, translateLoop_three]
    simp only [h0]
    rw [if_neg hp0.1, if_neg (fun h => h hp0.2), translateLoop_two]
    simp only [h1]
    rw [if_neg hl.1, if_pos hl.2]
    simp [guestPaDecode]
  · intro h0 hp0 h1 hp1 h2 hl
    unfold translate_guest_address
    rw [if_neg hg, translateLoop_three]
    simp only [h0]
    rw [if_neg hp0.1, if_neg (fun h => h hp0.2), translateLoop_two]
    simp only [h1]
    rw [if_neg hp1.1, if_neg (fun h => h hp1.2), translateLoop_one]
    simp only [h2]
    rw [if_neg hl.1, if_pos hl.2]
    simp [guestPaDecode]

theorem translate_guest_address_leaf_decode_witness :
    translate_guest_address gmW 0 0 =
      some { pte_value := 0xC03, pte_addr := 0x2000, guest_pa := 0x3000 } :=
  (translate_guest_address_leaf_decode gmW 0 0 0x401 0x801 0xC03
      (by decide) (by decide)).2.2
    (by decide) (by decide) (by decide) (by decide) (by decide) (by decide)

/-- `PageTableRoot` from the source. -/
inductive PageTableRoot
  | UVA
  | KVA
  | MVA
  | MPA
deriving DecidableEq

/-- The index of each root inside `root_page_tables`, from `root_pa`. -/
def rootIndex : PageTableRoot → Fin 4
  | .MPA => 0
  | .UVA => 1
  | .KVA => 2
  | .MVA => 3

/-- `PageTables` from the source.  The `PageTableRegion` it owns is modelled
as the word map `mem` (per the spec, the region's `set_*_pte` operations are
unchecked writes and indexing is a raw 64-bit read). -/
structure PageTables where
  mem : Nat → Nat
  root_page_tables : Fin 4 → Nat
  free_list_head : Nat

/-- Update one 64-bit word of a word map. -/
def writeWord (m : Nat → Nat) (a v : Nat) : Nat → Nat :=
  fun x => if x = a then v else m x

/-- Modelled from the spec: `set_invalid_pte` of `PageTableRegion`
(`memory_region.rs` is not among the sources) is an unchecked word write. -/
def PageTables.set_invalid_pte (pt : PageTables) (a v : Nat) : PageTables :=
  { pt with mem := writeWord pt.mem a v }

/-- Modelled from the spec: `set_leaf_pte`, an unchecked word write. -/
def PageTables.set_leaf_pte (pt : PageTables) (a v : Nat) : PageTables :=
  { pt with mem := writeWord pt.mem a v }

/-- Modelled from the spec: `set_nonleaf_pte`, an unchecked word write. -/
def PageTables.set_nonleaf_pte (pt : PageTables) (a v : Nat) : PageTables :=
  { pt with mem := writeWord pt.mem a v }

/-- `root_pa` from the source. -/
def PageTables.root_pa (pt : PageTables) (root : PageTableRoot) : Nat :=
  pt.root_page_tables (rootIndex root)

/-- The zeroing loop of `alloc_page`: `n` word writes of 0 at
`base, base+8, …` (the source writes the whole page, `free` to
`free + PAGE_SIZE - 8`). -/
def zeroSlots (m : Nat → Nat) (base : Nat) : Nat → (Nat → Nat)
  | 0 => m
  | n + 1 => writeWord (zeroSlots m base n) (base + n * 8) 0

/-- Iteration count of the `alloc_page` zeroing loop under `u64` arithmetic:
512 whenever `free + PAGE_SIZE` does not wrap past `2^64`; when it wraps, the
loop bound `free + PAGE_SIZE` becomes smaller than `free` and the loop body
never runs. -/
def allocZeroCount (free : Nat) : Nat :=
  if free + PAGE_SIZE < twoPow64 then 512 else 0

/-- `alloc_page` from the source; `none` models the fatal
"Out of hypervisor memory for page tables" panic.  The new head is read from
the popped page's first slot before the page is zeroed. -/
def PageTables.alloc_page (pt : PageTables) : Option (Nat × PageTables) :=
  if pt.free_list_head = NULL_PAGE_PTR then none
  else
    let free := pt.free_list_head
    some (free,
      { mem := zeroSlots pt.mem free (allocZeroCount free),
        root_page_tables := pt.root_page_tables,
        free_list_head := pt.mem free % twoPow64 })

/-- `free_page` from the source: write the previous head into the page's
first slot and make the page the new head. -/
def PageTables.free_page (pt : PageTables) (page : Nat) : PageTables :=
  { pt.set_invalid_pte page pt.free_list_head with free_list_head := page }

theorem writeWord_same (m : Nat → Nat) (a v : Nat) : writeWord m a v a = v :=
  if_pos rfl

theorem writeWord_other (m : Nat → Nat) (a v x : Nat) (h : x ≠ a) :
    writeWord m a v x = m x :=
  if_neg h

theorem zeroSlots_hit (m : Nat → Nat) (base n i : Nat) (h : i < n) :
    zeroSlots m base n (base + i * 8) = 0 := by
  induction n with
  | zero => omega
  | succ n ih =>
    by_cases hi : i = n
    · subst hi
      exact writeWord_same _ _ _
    · have hlt : i < n := by omega
      unfold zeroSlots
      rw [writeWord_other]
      · exact ih hlt
      · omega

theorem zeroSlots_miss (m : Nat → Nat) (base n x : Nat)
    (h : ∀ i, i < n → x ≠ base + i * 8) :
    zeroSlots m base n x = m x := by
  induction n with
  | zero => rfl
  | succ n ih =>
    unfold zeroSlots
    rw [writeWord_other]
    · exact ih (fun i hi => h i (by omega))
    · exact h n (by omega)

/-- C3: every `alloc_page` call that returns yields a page all of whose 512
eight-byte entries read as zero, regardless of the page's previous contents.
The arithmetic hypothesis only excludes the degenerate case where
`free + PAGE_SIZE` wraps past `2^64`, impossible for an address of a real
backing-region page. -/
theorem alloc_page_returns_zeroed_page (pt : PageTables)
    (hne : pt.free_list_head ≠ NULL_PAGE_PTR)
    (hwrap : pt.free_list_head + PAGE_SIZE < twoPow64) :
    ∃ pt2, pt.alloc_page = some (pt.free_list_head, pt2) ∧
      ∀ i, i < 512 → pt2.mem (pt.free_list_head + i * 8) = 0 := by
  unfold PageTables.alloc_page
  rw [if_neg hne]
  refine ⟨_, rfl, ?_⟩
  intro i hi
  have hc : allocZeroCount pt.free_list_head = 512 := by
    unfold allocZeroCount; rw [if_pos hwrap]
  simp only [hc]
  exact zeroSlots_hit _ _ _ _ hi

/-- A tiny concrete `PageTables` state used by witnesses: one free page at
0x1000 whose link slot holds the end-of-list sentinel, garbage elsewhere. -/
def ptW : PageTables :=
  { mem := fun a => if a = 0x1000 then NULL_PAGE_PTR else 7,
    root_page_tables := fun _ => 0,
    free_list_head := 0x1000 }

theorem alloc_page_returns_zeroed_page_witness :
    ∃ pt2, ptW.alloc_page = some (0x1000, pt2) ∧
      ∀ i, i < 512 → pt2.mem (0x1000 + i * 8) = 0 :=
  alloc_page_returns_zeroed_page ptW (by decide) (by decide)

/-- Unfolding of a successful `alloc_page`: pops the head, whose link slot
(read before zeroing) becomes the new head, and zeroes the popped page. -/
theorem alloc_page_spec (pt : PageTables) (h : pt.free_list_head ≠ NULL_PAGE_PTR) :
    pt.alloc_page = some (pt.free_list_head,
      { mem := zeroSlots pt.mem pt.free_list_head (allocZeroCount pt.free_list_head),
        root_page_tables := pt.root_page_tables,
        free_list_head := pt.mem pt.free_list_head % twoPow64 }) := by
  unfold PageTables.alloc_page
  rw [if_neg h]

/-- C6: the free list is LIFO.  `free_page A` then `free_page B` makes the
next `alloc_page` return `B` and the one after return `A`; `free_page`
pushes onto the head by writing the previous head into the freed page's
first slot, and `alloc_page` pops the head. -/
theorem free_free_alloc_alloc_lifo (pt : PageTables) (A B : Nat)
    (hA : A ≠ NULL_PAGE_PTR) (hB : B ≠ NULL_PAGE_PTR)
    (hA64 : A < twoPow64) :
    ((pt.free_page A).free_list_head = A ∧
      (pt.free_page A).mem A = pt.free_list_head) ∧
    ∃ pt3 pt4,
      ((pt.free_page A).free_page B).alloc_page = some (B, pt3) ∧
      pt3.alloc_page = some (A, pt4) := by
  refine ⟨⟨rfl, writeWord_same _ _ _⟩, ?_⟩
  have hmodA : A % twoPow64 = A := Nat.mod_eq_of_lt hA64
  have e1 := alloc_page_spec ((pt.free_page A).free_page B) hB
  simp only [PageTables.free_page, PageTables.set_invalid_pte, writeWord_same] at e1
  rw [hmodA] at e1
  exact ⟨_, _, e1, alloc_page_spec _ hA⟩

theorem free_free_alloc_alloc_lifo_witness :
    ((ptW.free_page 0x2000).free_list_head = 0x2000 ∧
      (ptW.free_page 0x2000).mem 0x2000 = 0x1000) ∧
    ∃ pt3 pt4,
      ((ptW.free_page 0x2000).free_page 0x3000).alloc_page = some (0x3000, pt3) ∧
      pt3.alloc_page = some (0x2000, pt4) :=
  free_free_alloc_alloc_lifo ptW 0x2000 0x3000 (by decide) (by decide) (by decide)

/-- Fatal halts of the shadow-table walker: a failed `assert!` / `assert_eq!`,
or the "Out of hypervisor memory for page tables" panic inside `alloc_page`. -/
inductive Fault
  | assertFail
  | outOfMemory
deriving DecidableEq

/-- `page_table + pte_index * 8` of the shadow walk in `u64` arithmetic, the
index being `(va >> (30 - PAGE_TABLE_SHIFT * level)) & 0x1ff`. -/
def shadowSlotAddr (page_table va level : Nat) : Nat :=
  (page_table + ((va >>> (30 - PAGE_TABLE_SHIFT * level)) &&& 0x1ff) * 8) % twoPow64

/-- One iteration of the `for level in 0..2` loop of `pte_for_addr`: fetch
the entry at the level's slot; a valid entry must carry no permission bits
(the `assert_eq!`) and is descended through; an invalid entry makes the
walker allocate a fresh page and install it with `(page >> 2) | PTE_VALID`.
Returns the next table base, the resulting state and, as ghost data, the
allocated page, if any. -/
def pteLevelStep (pt : PageTables) (va page_table level : Nat) :
    Except Fault (Nat × PageTables × Option Nat) :=
  if (pt.mem (shadowSlotAddr page_table va level) % twoPow64) &&& PTE_VALID ≠ 0 then
    if (pt.mem (shadowSlotAddr page_table va level) % twoPow64) &&&
        (PTE_READ ||| PTE_WRITE ||| PTE_EXECUTE) = 0 then
      .ok (pteChild (pt.mem (shadowSlotAddr page_table va level) % twoPow64), pt, none)
    else .error .assertFail
  else
    match pt.alloc_page with
    | none => .error .outOfMemory
    | some (page, pt1) =>
      .ok (page,
        pt1.set_nonleaf_pte (shadowSlotAddr page_table va level)
          ((page >>> 2) ||| PTE_VALID),
        some page)

/-- The three assertion preconditions at the top of `pte_for_addr`. -/
def pteForAddrPre (root : PageTableRoot) (va : Nat) : Prop :=
  va < DIRECT_MAP_OFFSET ∧ is_sv39 va = true ∧ root ≠ PageTableRoot.MPA

instance (root : PageTableRoot) (va : Nat) : Decidable (pteForAddrPre root va) := by
  unfold pteForAddrPre; infer_instance

/-- Ghost-instrumented outcome of `pte_for_addr`: the returned leaf-slot
address and final state, plus the table bases entered after each non-leaf
level and the pages allocated at each level, if any. -/
structure ShadowWalk where
  pte_addr : Nat
  state : PageTables
  table1 : Nat
  table2 : Nat
  alloc0 : Option Nat
  alloc1 : Option Nat

/-- `pte_for_addr` from the source, with the two-iteration loop unrolled and
ghost outputs recorded.  A failed assertion or the allocator's panic is an
`.error`. -/
def pteForAddrAux (pt : PageTables) (root : PageTableRoot) (va : Nat) :
    Except Fault ShadowWalk :=
  if ¬ pteForAddrPre root va then .error .assertFail
  else
    match pteLevelStep pt va (pt.root_pa root) 0 with
    | .error e => .error e
    | .ok (t1, pt1, a0) =>
      match pteLevelStep pt1 va t1 1 with
      | .error e => .error e
      | .ok (t2, pt2, a1) =>
        .ok { pte_addr := (t2 + ((va >>> 12) &&& 0x1ff) * 8) % twoPow64,
              state := pt2, table1 := t1, table2 := t2,
              alloc0 := a0, alloc1 := a1 }

/-- `pte_for_addr` from the source: the physical address of the leaf slot for
`va`, together with the state after any on-demand allocations. -/
def PageTables.pte_for_addr (pt : PageTables) (root : PageTableRoot) (va : Nat) :
    Except Fault (Nat × PageTables) :=
  (pteForAddrAux pt root va).map fun w => (w.pte_addr, w.state)

/-- `set_mapping` from the source: resolve the leaf slot, then install the
given leaf entry there. -/
def PageTables.set_mapping (pt : PageTables) (root : PageTableRoot) (va pte : Nat) :
    Except Fault PageTables :=
  (pt.pte_for_addr root va).map fun r => r.2.set_leaf_pte r.1 pte

/-- C9: `pte_for_addr` (hence `set_mapping`) halts with a fatal assertion
unless `va < DIRECT_MAP_OFFSET`, `va` is a valid sign-extended 39-bit
address, and the root is not MPA; under these preconditions, at each of the
two non-leaf levels a valid entry that carries any of READ, WRITE, EXECUTE
also halts the walk with a fatal assertion. -/
theorem pte_for_addr_assertion_behavior (pt : PageTables) (root : PageTableRoot)
    (va : Nat) :
    (¬ pteForAddrPre root va → pt.pte_for_addr root va = .error .assertFail) ∧
    (pteForAddrPre root va →
      (pt.mem (shadowSlotAddr (pt.root_pa root) va 0) % twoPow64) &&& PTE_VALID ≠ 0 →
      (pt.mem (shadowSlotAddr (pt.root_pa root) va 0) % twoPow64) &&&
        (PTE_READ ||| PTE_WRITE ||| PTE_EXECUTE) ≠ 0 →
      pt.pte_for_addr root va = .error .assertFail) ∧
    (∀ t1 pt1 a0, pteForAddrPre root va →
      pteLevelStep pt va (pt.root_pa root) 0 = .ok (t1, pt1, a0) →
      (pt1.mem (shadowSlotAddr t1 va 1) % twoPow64) &&& PTE_VALID ≠ 0 →
      (pt1.mem (shadowSlotAddr t1 va 1) % twoPow64) &&&
        (PTE_READ ||| PTE_WRITE ||| PTE_EXECUTE) ≠ 0 →
      pt.pte_for_addr root va = .error .assertFail) := by
  refine ⟨?_, ?_, ?_⟩
  · intro hpre
    unfold PageTables.pte_for_addr pteForAddrAux
    rw [if_pos hpre]
    rfl
  · intro hpre hv hp
    unfold PageTables.pte_for_addr pteForAddrAux
    rw [if_neg (fun hh => hh hpre)]
    have hstep : pteLevelStep pt va (pt.root_pa root) 0 = .error .assertFail := by
      unfold pteLevelStep
      rw [if_pos hv, if_neg hp]
    rw [hstep]
    rfl
  · intro t1 pt1 a0 hpre hstep0 hv hp
    unfold PageTables.pte_for_addr pteForAddrAux
    rw [if_neg (fun hh => hh hpre)]
    have hstep : pteLevelStep pt1 va t1 1 = .error .assertFail := by
      unfold pteLevelStep
      rw [if_pos hv, if_neg hp]
    simp only [hstep0, hstep]
    rfl

theorem pte_for_addr_assertion_behavior_witness :
    ptW.pte_for_addr PageTableRoot.MPA 0 = .error .assertFail :=
  (pte_for_addr_assertion_behavior ptW PageTableRoot.MPA 0).1 (by decide)

theorem or_one_shiftRight_ten (x : Nat) : (x ||| 1) >>> 10 = x >>> 10 := by
  have h2 : (x ||| 1) / 2 = x / 2 := by
    rw [Nat.or_div_two]
    norm_num
  rw [Nat.shiftRight_eq_div_pow, Nat.shiftRight_eq_div_pow]
  calc (x ||| 1) / 2 ^ 10 = (x ||| 1) / 2 / 2 ^ 9 := by
        rw [Nat.div_div_eq_div_mul]; norm_num
    _ = x / 2 / 2 ^ 9 := by rw [h2]
    _ = x / 2 ^ 10 := by rw [Nat.div_div_eq_div_mul]; norm_num

theorem installedPteBound (p : Nat) (h64 : p < twoPow64) :
    ((p >>> 2) ||| PTE_VALID) < twoPow64 := by
  have h1 : p >>> 2 < twoPow64 := by
    rw [Nat.shiftRight_eq_div_pow]
    exact lt_of_le_of_lt (Nat.div_le_self _ _) h64
  exact Nat.or_lt_two_pow h1 (by norm_num [PTE_VALID, twoPow64])

theorem installedPteValid (p : Nat) (h64 : p < twoPow64) :
    (((p >>> 2) ||| PTE_VALID) % twoPow64) &&& PTE_VALID ≠ 0 := by
  rw [Nat.mod_eq_of_lt (installedPteBound p h64)]
  show ((p >>> 2) ||| 1) &&& 1 ≠ 0
  rw [Nat.and_one_is_mod, Nat.or_mod_two_eq_one.mpr (Or.inr (by norm_num))]
  norm_num

theorem and_fourteen_of_mod_sixteen (x : Nat) (h : x % 16 = 0) : x &&& 14 = 0 := by
  have h15 : x &&& 15 = x % 16 := Nat.and_pow_two_sub_one_eq_mod x 4
  have h2 : (15 : Nat) &&& 14 = 14 := by decide
  have h1 : (x &&& 15) &&& 14 = x &&& 14 := by rw [Nat.and_assoc, h2]
  rw [← h1, h15, h]
  rfl

theorem installedPtePointer (p : Nat) (hal : p % PAGE_SIZE = 0) (h64 : p < twoPow64) :
    (((p >>> 2) ||| PTE_VALID) % twoPow64) &&&
      (PTE_READ ||| PTE_WRITE ||| PTE_EXECUTE) = 0 := by
  rw [Nat.mod_eq_of_lt (installedPteBound p h64)]
  show ((p >>> 2) ||| 1) &&& 14 = 0
  rw [Nat.and_distrib_right]
  have hal4096 : p % 4096 = 0 := hal
  have hx : (p >>> 2) &&& 14 = 0 := by
    apply and_fourteen_of_mod_sixteen
    rw [Nat.shiftRight_eq_div_pow]
    omega
  rw [hx]
  rfl

theorem installedPteChild (p : Nat) (hal : p % PAGE_SIZE = 0) (h64 : p < twoPow64) :
    pteChild (((p >>> 2) ||| PTE_VALID) % twoPow64) = p := by
  rw [Nat.mod_eq_of_lt (installedPteBound p h64)]
  unfold pteChild
  show ((((p >>> 2) ||| 1) >>> 10) <<< 12) % twoPow64 = p
  rw [or_one_shiftRight_ten, ← Nat.shiftRight_add]
  show ((p >>> 12) <<< 12) % twoPow64 = p
  rw [Nat.shiftRight_eq_div_pow, Nat.shiftLeft_eq]
  have hdvd : 4096 ∣ p := Nat.dvd_of_mod_eq_zero hal
  have : p / 2 ^ 12 * 2 ^ 12 = p := by
    show p / 4096 * 4096 = p
    exact Nat.div_mul_cancel hdvd
  rw [this]
  exact Nat.mod_eq_of_lt h64

/-- A valid pure-pointer entry makes `pteLevelStep` descend without touching
the state or allocating. -/
theorem pteLevelStep_pointer (pt : PageTables) (va table level : Nat)
    (hv : (pt.mem (shadowSlotAddr table va level) % twoPow64) &&& PTE_VALID ≠ 0)
    (hp : (pt.mem (shadowSlotAddr table va level) % twoPow64) &&&
      (PTE_READ ||| PTE_WRITE ||| PTE_EXECUTE) = 0) :
    pteLevelStep pt va table level =
      .ok (pteChild (pt.mem (shadowSlotAddr table va level) % twoPow64), pt, none) := by
  unfold pteLevelStep
  rw [if_pos hv, if_pos hp]

/-- Anatomy of a successful `pteLevelStep`: the roots array is untouched;
memory is unchanged away from the level's slot and from the freshly
allocated page (if any); and the step either descended a valid pointer
entry without allocating, or installed `(page >> 2) | PTE_VALID` at the
slot for a freshly allocated `page`. -/
theorem pteLevelStep_cases (pt : PageTables) (va table level t' : Nat)
    (pt' : PageTables) (al : Option Nat)
    (h : pteLevelStep pt va table level = .ok (t', pt', al)) :
    pt'.root_page_tables = pt.root_page_tables ∧
    (∀ a, a ≠ shadowSlotAddr table va level →
      (∀ p, al = some p → ¬ (p ≤ a ∧ a < p + PAGE_SIZE)) →
      pt'.mem a = pt.mem a) ∧
    ((al = none ∧ pt' = pt ∧
        t' = pteChild (pt.mem (shadowSlotAddr table va level) % twoPow64) ∧
        (pt.mem (shadowSlotAddr table va level) % twoPow64) &&& PTE_VALID ≠ 0 ∧
        (pt.mem (shadowSlotAddr table va level) % twoPow64) &&&
          (PTE_READ ||| PTE_WRITE ||| PTE_EXECUTE) = 0) ∨
      (∃ page, al = some page ∧ t' = page ∧
        pt'.mem (shadowSlotAddr table va level) = (page >>> 2) ||| PTE_VALID)) := by
  unfold pteLevelStep at h
  by_cases hv : (pt.mem (shadowSlotAddr table va level) % twoPow64) &&& PTE_VALID ≠ 0
  · rw [if_pos hv] at h
    by_cases hp : (pt.mem (shadowSlotAddr table va level) % twoPow64) &&&
        (PTE_READ ||| PTE_WRITE ||| PTE_EXECUTE) = 0
    · rw [if_pos hp] at h
      injection h with h2
      injection h2 with hA h3
      injection h3 with hB hC
      subst hA
      subst hB
      subst hC
      exact ⟨rfl, fun a _ _ => rfl, Or.inl ⟨rfl, rfl, rfl, hv, hp⟩⟩
    · rw [if_neg hp] at h
      exact Except.noConfusion h
  · rw [if_neg hv] at h
    by_cases hnull : pt.free_list_head = NULL_PAGE_PTR
    · have hnone : pt.alloc_page = none := by
        unfold PageTables.alloc_page
        rw [if_pos hnull]
      simp only [hnone] at h
      exact Except.noConfusion h
    · have hspec := alloc_page_spec pt hnull
      simp only [hspec] at h
      injection h with h2
      injection h2 with hA h3
      injection h3 with hB hC
      subst hA
      subst hB
      subst hC
      have hcnt : allocZeroCount pt.free_list_head ≤ 512 := by
        unfold allocZeroCount
        split <;> norm_num
      refine ⟨rfl, ?_, Or.inr ⟨pt.free_list_head, rfl, rfl, ?_⟩⟩
      · intro a hane hrange
        have hr := hrange pt.free_list_head rfl
        have hr4096 : ¬ (pt.free_list_head ≤ a ∧ a < pt.free_list_head + 4096) := hr
        simp only [PageTables.set_nonleaf_pte]
        rw [writeWord_other _ _ _ _ hane]
        exact zeroSlots_miss _ _ _ _ (fun i hi => by omega)
      · simp only [PageTables.set_nonleaf_pte]
        exact writeWord_same _ _ _

/-- C8: for a root other than MPA and a sign-extended Sv39 address below the
direct-map offset (the walker's preconditions), a successful `pte_for_addr`
followed by a second `pte_for_addr` with the same `(root, va)` and no
intervening mutation yields the same leaf-slot physical address (and leaves
the state unchanged): the second walk descends through the entries the
first walk found or installed.  The hypotheses say the pages the first walk
allocated are real aligned pages that do not overlap the root table's
slot, and that the level-0 and level-1 slots are distinct locations — both
automatic in any well-formed table tree. -/
theorem pte_for_addr_idempotent (pt : PageTables) (root : PageTableRoot) (va : Nat)
    (w : ShadowWalk)
    (h : pteForAddrAux pt root va = .ok w)
    (ha0 : ∀ p, w.alloc0 = some p → p % PAGE_SIZE = 0 ∧ p < twoPow64)
    (ha1 : ∀ p, w.alloc1 = some p → p % PAGE_SIZE = 0 ∧ p < twoPow64 ∧
      ¬ (p ≤ shadowSlotAddr (pt.root_pa root) va 0 ∧
          shadowSlotAddr (pt.root_pa root) va 0 < p + PAGE_SIZE))
    (hss : shadowSlotAddr (pt.root_pa root) va 0 ≠ shadowSlotAddr w.table1 va 1) :
    pt.pte_for_addr root va = .ok (w.pte_addr, w.state) ∧
      w.state.pte_for_addr root va = .ok (w.pte_addr, w.state) := by
  by_cases hpre : pteForAddrPre root va
  case neg =>
    unfold pteForAddrAux at h
    rw [if_pos hpre] at h
    exact Except.noConfusion h
  unfold pteForAddrAux at h
  rw [if_neg (fun hh => hh hpre)] at h
  cases h0 : pteLevelStep pt va (pt.root_pa root) 0 with
  | error e =>
    simp only [h0] at h
    exact Except.noConfusion h
  | ok r0 =>
    obtain ⟨t1, pt1, a0⟩ := r0
    simp only [h0] at h
    cases h1 : pteLevelStep pt1 va t1 1 with
    | error e =>
      simp only [h1] at h
      exact Except.noConfusion h
    | ok r1 =>
      obtain ⟨t2, pt2, a1⟩ := r1
      simp only [h1] at h
      injection h with hw
      subst hw
      have ha0q : ∀ p, a0 = some p → p % PAGE_SIZE = 0 ∧ p < twoPow64 := ha0
      have ha1q : ∀ p, a1 = some p → p % PAGE_SIZE = 0 ∧ p < twoPow64 ∧
          ¬ (p ≤ shadowSlotAddr (pt.root_pa root) va 0 ∧
              shadowSlotAddr (pt.root_pa root) va 0 < p + PAGE_SIZE) := ha1
      have hssq : shadowSlotAddr (pt.root_pa root) va 0 ≠ shadowSlotAddr t1 va 1 := hss
      obtain ⟨hr0, hframe0, hcase0⟩ := pteLevelStep_cases pt va (pt.root_pa root) 0 t1 pt1 a0 h0
      obtain ⟨hr1, hframe1, hcase1⟩ := pteLevelStep_cases pt1 va t1 1 t2 pt2 a1 h1
      have hroots2 : pt2.root_page_tables = pt.root_page_tables := hr1.trans hr0
      have hrootpa : pt2.root_pa root = pt.root_pa root := by
        unfold PageTables.root_pa
        rw [hroots2]
      have hkeep : pt2.mem (shadowSlotAddr (pt.root_pa root) va 0) =
          pt1.mem (shadowSlotAddr (pt.root_pa root) va 0) :=
        hframe1 _ hssq (fun p hp => (ha1q p hp).2.2)
      have hstep0q : pteLevelStep pt2 va (pt.root_pa root) 0 = .ok (t1, pt2, none) := by
        rcases hcase0 with ⟨_, hpteq, ht1, hv, hp⟩ | ⟨page, hal, ht1, hslot⟩
        · have hmem02 : pt2.mem (shadowSlotAddr (pt.root_pa root) va 0) =
              pt.mem (shadowSlotAddr (pt.root_pa root) va 0) := by
            rw [hkeep, hpteq]
          have hv2 : (pt2.mem (shadowSlotAddr (pt.root_pa root) va 0) % twoPow64) &&&
              PTE_VALID ≠ 0 := by rw [hmem02]; exact hv
          have hp2 : (pt2.mem (shadowSlotAddr (pt.root_pa root) va 0) % twoPow64) &&&
              (PTE_READ ||| PTE_WRITE ||| PTE_EXECUTE) = 0 := by rw [hmem02]; exact hp
          rw [pteLevelStep_pointer pt2 va (pt.root_pa root) 0 hv2 hp2, hmem02, ← ht1]
        · obtain ⟨halign, hbound⟩ := ha0q page hal
          have hval : pt2.mem (shadowSlotAddr (pt.root_pa root) va 0) =
              (page >>> 2) ||| PTE_VALID := hkeep.trans hslot
          have hv2 : (pt2.mem (shadowSlotAddr (pt.root_pa root) va 0) % twoPow64) &&&
              PTE_VALID ≠ 0 := by rw [hval]; exact installedPteValid page hbound
          have hp2 : (pt2.mem (shadowSlotAddr (pt.root_pa root) va 0) % twoPow64) &&&
              (PTE_READ ||| PTE_WRITE ||| PTE_EXECUTE) = 0 := by
            rw [hval]; exact installedPtePointer page halign hbound
          rw [pteLevelStep_pointer pt2 va (pt.root_pa root) 0 hv2 hp2, hval,
            installedPteChild page halign hbound, ← ht1]
      have hstep1q : pteLevelStep pt2 va t1 1 = .ok (t2, pt2, none) := by
        rcases hcase1 with ⟨_, hpteq, ht2, hv, hp⟩ | ⟨page, hal, ht2, hslot⟩
        · have hmem12 : pt2.mem (shadowSlotAddr t1 va 1) =
              pt1.mem (shadowSlotAddr t1 va 1) := by rw [hpteq]
          have hv2 : (pt2.mem (shadowSlotAddr t1 va 1) % twoPow64) &&& PTE_VALID ≠ 0 := by
            rw [hmem12]; exact hv
          have hp2 : (pt2.mem (shadowSlotAddr t1 va 1) % twoPow64) &&&
              (PTE_READ ||| PTE_WRITE ||| PTE_EXECUTE) = 0 := by
            rw [hmem12]; exact hp
          rw [pteLevelStep_pointer pt2 va t1 1 hv2 hp2, hmem12, ← ht2]
        · obtain ⟨halign, hbound, _⟩ := ha1q page hal
          have hv2 : (pt2.mem (shadowSlotAddr t1 va 1) % twoPow64) &&& PTE_VALID ≠ 0 := by
            rw [hslot]; exact installedPteValid page hbound
          have hp2 : (pt2.mem (shadowSlotAddr t1 va 1) % twoPow64) &&&
              (PTE_READ ||| PTE_WRITE ||| PTE_EXECUTE) = 0 := by
            rw [hslot]; exact installedPtePointer page halign hbound
          rw [pteLevelStep_pointer pt2 va t1 1 hv2 hp2, hslot,
            installedPteChild page halign hbound, ← ht2]
      constructor
      · unfold PageTables.pte_for_addr pteForAddrAux
        rw [if_neg (fun hh => hh hpre)]
        simp only [h0, h1]
        rfl
      · unfold PageTables.pte_for_addr pteForAddrAux
        rw [if_neg (fun hh => hh hpre), hrootpa]
        simp only [hstep0q, hstep1q]
        rfl

/-- Concrete witness state for the shadow walker: UVA root page at 0x1000
whose slot 0 points to the table at 0x2000, whose slot 0 points to the leaf
table at 0x3000. -/
def ptC8 : PageTables :=
  { mem := fun a => if a = 0x1000 then 0x801 else if a = 0x2000 then 0xC01 else 0,
    root_page_tables := fun i => if i = 1 then 0x1000 else 0x4000,
    free_list_head := NULL_PAGE_PTR }

theorem pte_for_addr_idempotent_witness :
    ptC8.pte_for_addr PageTableRoot.UVA 0 = .ok (0x3000, ptC8) ∧
      ptC8.pte_for_addr PageTableRoot.UVA 0 = .ok (0x3000, ptC8) :=
  pte_for_addr_idempotent ptC8 PageTableRoot.UVA 0
    { pte_addr := 0x3000, state := ptC8, table1 := 0x2000, table2 := 0x3000,
      alloc0 := none, alloc1 := none }
    rfl (fun p hp => nomatch hp) (fun p hp => nomatch hp) (by decide)

/-- `clear_page_table_range` from the source, instrumented with the list of
child pages handed to `free_page` (in chronological order) and a recursion
gas: the source recursion carries no depth bound of its own (it terminates
because well-formed tables form a finite tree), so `none` models either a
failed entry assertion (`start_index <= end_index <= 512`) or an execution
needing more than `gas` nested calls.  Each slot in range is read; a
non-leaf valid entry (`pte & PTE_RWXV == PTE_VALID`) has its child table
cleared recursively over the full `0..512` range and freed; the slot is
then unconditionally overwritten with invalid zero. -/
def clearAux : Nat → PageTables → Nat → Nat → Nat → Option (PageTables × List Nat)
  | 0, _, _, _, _ => none
  | gas + 1, pt, pa, s, e =>
    if ¬ (s ≤ e ∧ e ≤ 512) then none
    else if s < e then
      if (pt.mem ((pa + s * 8) % twoPow64) % twoPow64) &&& PTE_RWXV = PTE_VALID then
        match clearAux gas pt
            (pteChild (pt.mem ((pa + s * 8) % twoPow64) % twoPow64)) 0 512 with
        | none => none
        | some (pt1, freed1) =>
          match clearAux gas
              (((pt1.free_page
                  (pteChild (pt.mem ((pa + s * 8) % twoPow64) % twoPow64))).set_invalid_pte
                ((pa + s * 8) % twoPow64) 0)) pa (s + 1) e with
          | none => none
          | some (ptF, freed2) =>
            some (ptF,
              freed1 ++ pteChild (pt.mem ((pa + s * 8) % twoPow64) % twoPow64) :: freed2)
      else
        clearAux gas (pt.set_invalid_pte ((pa + s * 8) % twoPow64) 0) pa (s + 1) e
    else some (pt, [])

/-- `clear_page_table_range` from the source (projection of the
instrumented version). -/
def PageTables.clear_page_table_range (gas : Nat) (pt : PageTables) (pa s e : Nat) :
    Option PageTables :=
  (clearAux gas pt pa s e).map Prod.fst

theorem pteChild_aligned (x : Nat) : pteChild x % PAGE_SIZE = 0 ∧ pteChild x < twoPow64 := by
  unfold pteChild
  constructor
  · rw [Nat.shiftLeft_eq]
    show (x >>> 10) * 2 ^ 12 % twoPow64 % 4096 = 0
    have h64 : twoPow64 = 2 ^ 12 * 2 ^ 52 := by norm_num [twoPow64]
    rw [h64, Nat.mul_comm (x >>> 10) (2 ^ 12), Nat.mul_mod_mul_left]
    exact Nat.mul_mod_right 4096 _
  · exact Nat.mod_lt _ (by norm_num [twoPow64])

theorem slotAddr_ne (pa i j : Nat) (hi : i < 512) (hj : j < 512) (hne : i ≠ j) :
    (pa + i * 8) % twoPow64 ≠ (pa + j * 8) % twoPow64 := by
  intro heq
  have h64 : twoPow64 = 18446744073709551616 := by norm_num [twoPow64]
  rw [h64] at heq
  omega

/-- Inversion of a successful `clearAux`: either the range is empty, or the
first slot held a pointer entry (child cleared over `0..512`, freed, slot
zeroed, loop continued) or not (slot zeroed, loop continued). -/
theorem clearAux_inversion (gas : Nat) (pt : PageTables) (pa s e : Nat)
    (pt' : PageTables) (freed : List Nat)
    (h : clearAux (gas + 1) pt pa s e = some (pt', freed)) :
    (s ≤ e ∧ e ≤ 512) ∧
    ((¬ s < e ∧ pt' = pt ∧ freed = []) ∨
      (s < e ∧
        (((pt.mem ((pa + s * 8) % twoPow64) % twoPow64) &&& PTE_RWXV = PTE_VALID ∧
          ∃ pt1 freed1 freed2,
            clearAux gas pt
              (pteChild (pt.mem ((pa + s * 8) % twoPow64) % twoPow64)) 0 512 =
              some (pt1, freed1) ∧
            clearAux gas
              ((pt1.free_page
                  (pteChild (pt.mem ((pa + s * 8) % twoPow64) % twoPow64))).set_invalid_pte
                ((pa + s * 8) % twoPow64) 0) pa (s + 1) e = some (pt', freed2) ∧
            freed = freed1 ++
              pteChild (pt.mem ((pa + s * 8) % twoPow64) % twoPow64) :: freed2) ∨
          ((pt.mem ((pa + s * 8) % twoPow64) % twoPow64) &&& PTE_RWXV ≠ PTE_VALID ∧
            clearAux gas (pt.set_invalid_pte ((pa + s * 8) % twoPow64) 0) pa (s + 1) e =
              some (pt', freed))))) := by
  by_cases hok : s ≤ e ∧ e ≤ 512
  case neg =>
    unfold clearAux at h
    rw [if_pos hok] at h
    exact Option.noConfusion h
  refine ⟨hok, ?_⟩
  unfold clearAux at h
  rw [if_neg (not_not_intro hok)] at h
  by_cases hse : s < e
  case neg =>
    rw [if_neg hse] at h
    injection h with h2
    injection h2 with hA hB
    exact Or.inl ⟨hse, hA.symm, hB.symm⟩
  rw [if_pos hse] at h
  by_cases hptr : (pt.mem ((pa + s * 8) % twoPow64) % twoPow64) &&& PTE_RWXV = PTE_VALID
  · rw [if_pos hptr] at h
    cases hchild : clearAux gas pt
        (pteChild (pt.mem ((pa + s * 8) % twoPow64) % twoPow64)) 0 512 with
    | none =>
      simp only [hchild] at h
      exact Option.noConfusion h
    | some r1 =>
      obtain ⟨pt1, freed1⟩ := r1
      simp only [hchild] at h
      cases htail : clearAux gas
          ((pt1.free_page
              (pteChild (pt.mem ((pa + s * 8) % twoPow64) % twoPow64))).set_invalid_pte
            ((pa + s * 8) % twoPow64) 0) pa (s + 1) e with
      | none =>
        simp only [htail] at h
        exact Option.noConfusion h
      | some r2 =>
        obtain ⟨ptF, freed2⟩ := r2
        simp only [htail] at h
        injection h with h2
        injection h2 with hA hB
        refine Or.inr ⟨hse, Or.inl ⟨hptr, pt1, freed1, freed2, rfl, ?_, hB.symm⟩⟩
        rw [← hA]
        exact htail
  · rw [if_neg hptr] at h
    exact Or.inr ⟨hse, Or.inr ⟨hptr, h⟩⟩

/-- Frame property of `clearAux`: the roots array is untouched, and any
address whose contents changed either reads zero afterwards or is the base
of a freed page (where the free-list link was written); moreover every
changed address is one of the range's slots or lies inside a freed page. -/
theorem clearAux_frame : ∀ (gas : Nat) (pt : PageTables) (pa s e : Nat)
    (pt' : PageTables) (freed : List Nat),
    clearAux gas pt pa s e = some (pt', freed) →
    pt'.root_page_tables = pt.root_page_tables ∧
    (∀ a, pt'.mem a = pt.mem a ∨
      ((pt'.mem a = 0 ∨ a ∈ freed) ∧
        ((∃ i, s ≤ i ∧ i < e ∧ a = (pa + i * 8) % twoPow64) ∨
          (∃ f, f ∈ freed ∧ f ≤ a ∧ a < f + PAGE_SIZE)))) := by
  intro gas
  induction gas with
  | zero =>
    intro pt pa s e pt' freed h
    exact Option.noConfusion h
  | succ gas ih =>
    intro pt pa s e pt' freed h
    obtain ⟨⟨hse0, he512⟩, hcases⟩ := clearAux_inversion gas pt pa s e pt' freed h
    rcases hcases with ⟨hnlt, hpt, hfreed⟩ | ⟨hlt, hcases⟩
    · subst hpt; subst hfreed
      exact ⟨rfl, fun a => Or.inl rfl⟩
    rcases hcases with ⟨hptr, pt1, freed1, freed2, hchild, htail, hfreedeq⟩ |
      ⟨hnptr, htail⟩
    · subst hfreedeq
      set C := pteChild (pt.mem ((pa + s * 8) % twoPow64) % twoPow64) with hC
      obtain ⟨hCal, hClt⟩ := pteChild_aligned (pt.mem ((pa + s * 8) % twoPow64) % twoPow64)
      rw [← hC] at hCal hClt
      obtain ⟨hr1, hm1⟩ := ih pt C 0 512 pt1 freed1 hchild
      obtain ⟨hr2, hm2⟩ := ih
        ((pt1.free_page C).set_invalid_pte ((pa + s * 8) % twoPow64) 0) pa (s + 1) e
        pt' freed2 htail
      have hmemC : ∀ a, a ∈ freed1 ++ C :: freed2 ↔ a ∈ freed1 ∨ a = C ∨ a ∈ freed2 := by
        intro a
        simp [List.mem_append, List.mem_cons]
      refine ⟨?_, ?_⟩
      · calc pt'.root_page_tables
            = ((pt1.free_page C).set_invalid_pte ((pa + s * 8) % twoPow64) 0).root_page_tables := hr2
          _ = pt1.root_page_tables := rfl
          _ = pt.root_page_tables := hr1
      · intro a
        rcases hm2 a with h2eq | ⟨h2val, h2loc⟩
        · have h3 : ((pt1.free_page C).set_invalid_pte ((pa + s * 8) % twoPow64) 0).mem a =
              writeWord (writeWord pt1.mem C pt1.free_list_head)
                ((pa + s * 8) % twoPow64) 0 a := rfl
          by_cases hA : a = (pa + s * 8) % twoPow64
          · refine Or.inr ⟨Or.inl ?_, Or.inl ⟨s, le_refl s, hlt, hA⟩⟩
            rw [h2eq, h3, hA]
            exact writeWord_same _ _ _
          · by_cases hB : a = C
            · refine Or.inr ⟨Or.inr ((hmemC a).mpr (Or.inr (Or.inl hB))),
                Or.inr ⟨C, (hmemC C).mpr (Or.inr (Or.inl rfl)), ?_, ?_⟩⟩
              · omega
              · show a < C + PAGE_SIZE
                have : (0 : Nat) < PAGE_SIZE := by norm_num [PAGE_SIZE]
                omega
            · have h4 : pt'.mem a = pt1.mem a := by
                rw [h2eq, h3, writeWord_other _ _ _ _ hA, writeWord_other _ _ _ _ hB]
              rcases hm1 a with h1eq | ⟨h1val, h1loc⟩
              · exact Or.inl (h4.trans h1eq)
              · refine Or.inr ⟨?_, ?_⟩
                · rcases h1val with h1z | h1f
                  · exact Or.inl (h4.trans h1z)
                  · exact Or.inr ((hmemC a).mpr (Or.inl h1f))
                · rcases h1loc with ⟨i, _, hi512, hia⟩ | ⟨f, hf, hfa, haf⟩
                  · have hCal2 : C % 4096 = 0 := hCal
                    have h64 : twoPow64 = 18446744073709551616 := by norm_num [twoPow64]
                    have hlt64 : C + i * 8 < twoPow64 := by omega
                    refine Or.inr ⟨C, (hmemC C).mpr (Or.inr (Or.inl rfl)), ?_, ?_⟩
                    · rw [hia, Nat.mod_eq_of_lt hlt64]
                      omega
                    · rw [hia, Nat.mod_eq_of_lt hlt64]
                      have hP : PAGE_SIZE = 4096 := rfl
                      omega
                  · exact Or.inr ⟨f, (hmemC f).mpr (Or.inl hf), hfa, haf⟩
        · refine Or.inr ⟨?_, ?_⟩
          · rcases h2val with h2z | h2f
            · exact Or.inl h2z
            · exact Or.inr ((hmemC a).mpr (Or.inr (Or.inr h2f)))
          · rcases h2loc with ⟨i, hsi, hie, hia⟩ | ⟨f, hf, hfa, haf⟩
            · exact Or.inl ⟨i, by omega, hie, hia⟩
            · exact Or.inr ⟨f, (hmemC f).mpr (Or.inr (Or.inr hf)), hfa, haf⟩
    · obtain ⟨hr2, hm2⟩ := ih
        (pt.set_invalid_pte ((pa + s * 8) % twoPow64) 0) pa (s + 1) e pt' freed htail
      refine ⟨hr2.trans rfl, ?_⟩
      intro a
      rcases hm2 a with h2eq | ⟨h2val, h2loc⟩
      · by_cases hA : a = (pa + s * 8) % twoPow64
        · refine Or.inr ⟨Or.inl ?_, Or.inl ⟨s, le_refl s, hlt, hA⟩⟩
          rw [h2eq, hA]
          exact writeWord_same _ _ _
        · have h4 : pt'.mem a = pt.mem a := by
            rw [h2eq]
            exact writeWord_other _ _ _ _ hA
          exact Or.inl h4
      · refine Or.inr ⟨h2val, ?_⟩
        rcases h2loc with ⟨i, hsi, hie, hia⟩ | hf
        · exact Or.inl ⟨i, by omega, hie, hia⟩
        · exact Or.inr hf

/-- Every page freed by `clearAux` is a child pointer decode, hence
4096-aligned and below `2^64`. -/
theorem clearAux_freed_aligned : ∀ (gas : Nat) (pt : PageTables)
    (pa s e : Nat) (pt' : PageTables) (freed : List Nat),
    clearAux gas pt pa s e = some (pt', freed) →
    ∀ f ∈ freed, f % PAGE_SIZE = 0 ∧ f < twoPow64 := by
  intro gas
  induction gas with
  | zero =>
    intro pt pa s e pt' freed h
    exact Option.noConfusion h
  | succ gas ih =>
    intro pt pa s e pt' freed h
    obtain ⟨⟨hse0, he512⟩, hcases⟩ := clearAux_inversion gas pt pa s e pt' freed h
    rcases hcases with ⟨hnlt, hpt, hfreed⟩ | ⟨hlt, hcases⟩
    · subst hfreed
      intro f hf
      simp at hf
    rcases hcases with ⟨hptr, pt1, freed1, freed2, hchild, htail, hfreedeq⟩ |
      ⟨hnptr, htail⟩
    · subst hfreedeq
      intro f hf
      rcases List.mem_append.mp hf with hf1 | hf2
      · exact ih pt _ 0 512 pt1 freed1 hchild f hf1
      · rcases List.mem_cons.mp hf2 with hfC | hf2
        · subst hfC
          exact pteChild_aligned _
        · exact ih _ pa (s + 1) e pt' freed2 htail f hf2
    · intro f hf
      exact ih _ pa (s + 1) e pt' freed htail f hf

/-- Main lemma for `clear_page_table_range`: under a successful run whose
freed pages are distinct and do not overlap the range's slots, every slot in
`[s, e)` reads zero afterwards, and every slot that held a pointer entry had
its child freed and the child's 512-entry table fully cleared (slot 0 of the
child holds the free-list link written by `free_page`). -/
theorem clearAux_main : ∀ (gas : Nat) (pt : PageTables) (pa s e : Nat)
    (pt' : PageTables) (freed : List Nat),
    clearAux gas pt pa s e = some (pt', freed) →
    freed.Nodup →
    (∀ f ∈ freed, ∀ i, s ≤ i → i < e →
      ¬ (f ≤ (pa + i * 8) % twoPow64 ∧ (pa + i * 8) % twoPow64 < f + PAGE_SIZE)) →
    (∀ i, s ≤ i → i < e → pt'.mem ((pa + i * 8) % twoPow64) = 0) ∧
    (∀ i, s ≤ i → i < e →
      (pt.mem ((pa + i * 8) % twoPow64) % twoPow64) &&& PTE_RWXV = PTE_VALID →
      pteChild (pt.mem ((pa + i * 8) % twoPow64) % twoPow64) ∈ freed ∧
      (∀ k, 1 ≤ k → k < 512 →
        pt'.mem (pteChild (pt.mem ((pa + i * 8) % twoPow64) % twoPow64) + k * 8) = 0)) := by
  intro gas
  induction gas with
  | zero =>
    intro pt pa s e pt' freed h
    exact Option.noConfusion h
  | succ gas ih =>
    intro pt pa s e pt' freed h hnodup hsep
    obtain ⟨⟨hse0, he512⟩, hcases⟩ := clearAux_inversion gas pt pa s e pt' freed h
    rcases hcases with ⟨hnlt, hpt, hfreed⟩ | ⟨hlt, hcases⟩
    · exact ⟨fun i hsi hie => absurd (by omega : s < e) hnlt,
        fun i hsi hie _ => absurd (by omega : s < e) hnlt⟩
    have hP : PAGE_SIZE = 4096 := rfl
    have h64 : twoPow64 = 18446744073709551616 := by norm_num [twoPow64]
    rcases hcases with ⟨hptr, pt1, freed1, freed2, hchild, htail, hfreedeq⟩ |
      ⟨hnptr, htail⟩
    · subst hfreedeq
      set C := pteChild (pt.mem ((pa + s * 8) % twoPow64) % twoPow64) with hC
      obtain ⟨hCal, hClt⟩ := pteChild_aligned (pt.mem ((pa + s * 8) % twoPow64) % twoPow64)
      rw [← hC] at hCal hClt
      have hCal4096 : C % 4096 = 0 := hCal
      have hCfreed : C ∈ freed1 ++ C :: freed2 :=
        List.mem_append.mpr (Or.inr (List.mem_cons_self _ _))
      have hsepC := hsep C hCfreed s (le_refl s) hlt
      have hnodup1 : freed1.Nodup := hnodup.of_append_left
      have hnodup2 : freed2.Nodup := (List.Nodup.of_append_right hnodup).of_cons
      have hCnotin1 : C ∉ freed1 := fun hin =>
        (List.disjoint_of_nodup_append hnodup) hin (List.mem_cons_self C freed2)
      have hal1 := clearAux_freed_aligned gas pt C 0 512 pt1 freed1 hchild
      have hal2 := clearAux_freed_aligned gas
        ((pt1.free_page C).set_invalid_pte ((pa + s * 8) % twoPow64) 0) pa (s + 1) e
        pt' freed2 htail
      have hsep1 : ∀ f ∈ freed1, ∀ k, 0 ≤ k → k < 512 →
          ¬ (f ≤ (C + k * 8) % twoPow64 ∧ (C + k * 8) % twoPow64 < f + PAGE_SIZE) := by
        intro f hf k _ hk hcon
        obtain ⟨hfal, hflt⟩ := hal1 f hf
        have hfal4096 : f % 4096 = 0 := hfal
        have hCk : (C + k * 8) % twoPow64 = C + k * 8 := Nat.mod_eq_of_lt (by omega)
        rw [hCk, hP] at hcon
        have : f = C := by omega
        exact hCnotin1 (this ▸ hf)
      obtain ⟨Achild, _⟩ := ih pt C 0 512 pt1 freed1 hchild hnodup1 hsep1
      obtain ⟨_, hm1⟩ := clearAux_frame gas pt C 0 512 pt1 freed1 hchild
      obtain ⟨_, hm2⟩ := clearAux_frame gas
        ((pt1.free_page C).set_invalid_pte ((pa + s * 8) % twoPow64) 0) pa (s + 1) e
        pt' freed2 htail
      have hsep2 : ∀ f ∈ freed2, ∀ i, s + 1 ≤ i → i < e →
          ¬ (f ≤ (pa + i * 8) % twoPow64 ∧ (pa + i * 8) % twoPow64 < f + PAGE_SIZE) := by
        intro f hf i hsi hie
        exact hsep f (List.mem_append.mpr (Or.inr (List.mem_cons_of_mem _ hf))) i
          (by omega) hie
      obtain ⟨Atail, Btail⟩ := ih
        ((pt1.free_page C).set_invalid_pte ((pa + s * 8) % twoPow64) 0) pa (s + 1) e
        pt' freed2 htail hnodup2 hsep2
      have hpt3slot : ((pt1.free_page C).set_invalid_pte ((pa + s * 8) % twoPow64) 0).mem
          ((pa + s * 8) % twoPow64) = 0 := writeWord_same _ _ _
      have hpt3other : ∀ a, a ≠ (pa + s * 8) % twoPow64 → a ≠ C →
          ((pt1.free_page C).set_invalid_pte ((pa + s * 8) % twoPow64) 0).mem a =
            pt1.mem a := by
        intro a h1 h2
        show writeWord (writeWord pt1.mem C pt1.free_list_head) ((pa + s * 8) % twoPow64) 0 a
            = pt1.mem a
        rw [writeWord_other _ _ _ _ h1, writeWord_other _ _ _ _ h2]
      have hslot_keep : ∀ i, s ≤ i → i < e →
          ((pt1.free_page C).set_invalid_pte ((pa + s * 8) % twoPow64) 0).mem
            ((pa + i * 8) % twoPow64) = pt.mem ((pa + i * 8) % twoPow64) ∨ i = s := by
        intro i hsi hie
        by_cases hi : i = s
        · exact Or.inr hi
        left
        have hine : (pa + i * 8) % twoPow64 ≠ (pa + s * 8) % twoPow64 :=
          slotAddr_ne pa i s (by omega) (by omega) hi
        have hsepi := hsep C hCfreed i hsi hie
        have hiC : (pa + i * 8) % twoPow64 ≠ C := by
          intro hEq
          exact hsepi ⟨le_of_eq hEq.symm, by omega⟩
        rw [hpt3other _ hine hiC]
        rcases hm1 ((pa + i * 8) % twoPow64) with heq | ⟨_, hloc⟩
        · exact heq
        · exfalso
          rcases hloc with ⟨j, _, hj512, hja⟩ | ⟨f, hf, hfa, haf⟩
          · have hCj : (C + j * 8) % twoPow64 = C + j * 8 := Nat.mod_eq_of_lt (by omega)
            rw [hCj] at hja
            exact hsepi ⟨by omega, by omega⟩
          · exact hsep f (List.mem_append.mpr (Or.inl hf)) i hsi hie ⟨hfa, haf⟩
      constructor
      · intro i hsi hie
        by_cases hi : i = s
        · subst hi
          rcases hm2 ((pa + i * 8) % twoPow64) with heq | ⟨hval, _⟩
          · exact heq.trans hpt3slot
          · rcases hval with hz | hfm
            · exact hz
            · exfalso
              exact hsep _ (List.mem_append.mpr (Or.inr (List.mem_cons_of_mem _ hfm))) i
                hsi hie ⟨le_refl _, by omega⟩
        · exact Atail i (by omega) hie
      · intro i hsi hie hptri
        by_cases hi : i = s
        · subst hi
          refine ⟨hCfreed, ?_⟩
          intro k hk1 hk512
          have hbound : C + k * 8 < twoPow64 := by omega
          have hne_s : C + k * 8 ≠ (pa + i * 8) % twoPow64 := by
            intro hEq
            exact hsepC ⟨by omega, by omega⟩
          have hne_C : C + k * 8 ≠ C := by omega
          have h3 : ((pt1.free_page C).set_invalid_pte ((pa + i * 8) % twoPow64) 0).mem
              (C + k * 8) = 0 := by
            rw [hpt3other _ hne_s hne_C]
            have := Achild k (by omega) hk512
            rw [Nat.mod_eq_of_lt hbound] at this
            exact this
          rcases hm2 (C + k * 8) with heq | ⟨hval, _⟩
          · exact heq.trans h3
          · rcases hval with hz | hfm
            · exact hz
            · exfalso
              obtain ⟨hfal, _⟩ := hal2 _ hfm
              have hfal4096 : (C + k * 8) % 4096 = 0 := hfal
              omega
        · have hkeep := hslot_keep i hsi hie
          rcases hkeep with hkeep | hieq
          · have hptri3 : (((pt1.free_page C).set_invalid_pte ((pa + s * 8) % twoPow64)
                0).mem ((pa + i * 8) % twoPow64) % twoPow64) &&& PTE_RWXV = PTE_VALID := by
              rw [hkeep]
              exact hptri
            obtain ⟨hmemf, hzero⟩ := Btail i (by omega) hie hptri3
            rw [hkeep] at hmemf hzero
            exact ⟨List.mem_append.mpr (Or.inr (List.mem_cons_of_mem _ hmemf)), hzero⟩
          · exact absurd hieq hi
    · have hsep2 : ∀ f ∈ freed, ∀ i, s + 1 ≤ i → i < e →
          ¬ (f ≤ (pa + i * 8) % twoPow64 ∧ (pa + i * 8) % twoPow64 < f + PAGE_SIZE) := by
        intro f hf i hsi hie
        exact hsep f hf i (by omega) hie
      obtain ⟨Atail, Btail⟩ := ih
        (pt.set_invalid_pte ((pa + s * 8) % twoPow64) 0) pa (s + 1) e pt' freed
        htail hnodup hsep2
      obtain ⟨_, hm2⟩ := clearAux_frame gas
        (pt.set_invalid_pte ((pa + s * 8) % twoPow64) 0) pa (s + 1) e pt' freed htail
      have hpt3slot : (pt.set_invalid_pte ((pa + s * 8) % twoPow64) 0).mem
          ((pa + s * 8) % twoPow64) = 0 := writeWord_same _ _ _
      constructor
      · intro i hsi hie
        by_cases hi : i = s
        · subst hi
          rcases hm2 ((pa + i * 8) % twoPow64) with heq | ⟨hval, _⟩
          · exact heq.trans hpt3slot
          · rcases hval with hz | hfm
            · exact hz
            · exfalso
              exact hsep _ hfm i hsi hie ⟨le_refl _, by omega⟩
        · exact Atail i (by omega) hie
      · intro i hsi hie hptri
        by_cases hi : i = s
        · subst hi
          exact absurd hptri hnptr
        · have hine : (pa + i * 8) % twoPow64 ≠ (pa + s * 8) % twoPow64 :=
            slotAddr_ne pa i s (by omega) (by omega) hi
          have hkeep : (pt.set_invalid_pte ((pa + s * 8) % twoPow64) 0).mem
              ((pa + i * 8) % twoPow64) = pt.mem ((pa + i * 8) % twoPow64) :=
            writeWord_other _ _ _ _ hine
          have hptri3 : ((pt.set_invalid_pte ((pa + s * 8) % twoPow64) 0).mem
              ((pa + i * 8) % twoPow64) % twoPow64) &&& PTE_RWXV = PTE_VALID := by
            rw [hkeep]
            exact hptri
          obtain ⟨hmemf, hzero⟩ := Btail i (by omega) hie hptri3
          rw [hkeep] at hmemf hzero
          exact ⟨hmemf, hzero⟩

/-- C4: for a table page `pa` and indices `start <= end <= 512`, a completed
`clear_page_table_range` zeroes every slot in `[start, end)`; each slot in
range that held a valid pointer entry (VALID set, R/W/X clear) had its whole
512-entry child table cleared (all child slots read zero except slot 0,
which carries the free-list link installed when the child was pushed back
onto the free list) and the child page appears in the list of pages handed
to `free_page`.  The hypotheses (the freed pages are pairwise distinct and
none of them overlaps the cleared slot range) hold in any well-formed,
singly-owned table tree, which is exactly the regime the claim describes. -/
theorem clear_page_table_range_spec (gas : Nat) (pt : PageTables) (pa s e : Nat)
    (pt' : PageTables) (freed : List Nat)
    (h : clearAux gas pt pa s e = some (pt', freed))
    (hnodup : freed.Nodup)
    (hsep : ∀ f ∈ freed, ∀ i, s ≤ i → i < e →
      ¬ (f ≤ (pa + i * 8) % twoPow64 ∧ (pa + i * 8) % twoPow64 < f + PAGE_SIZE)) :
    pt.clear_page_table_range gas pa s e = some pt' ∧
    (∀ i, s ≤ i → i < e → pt'.mem ((pa + i * 8) % twoPow64) = 0) ∧
    (∀ i, s ≤ i → i < e →
      (pt.mem ((pa + i * 8) % twoPow64) % twoPow64) &&& PTE_RWXV = PTE_VALID →
      pteChild (pt.mem ((pa + i * 8) % twoPow64) % twoPow64) ∈ freed ∧
      (∀ k, 1 ≤ k → k < 512 →
        pt'.mem (pteChild (pt.mem ((pa + i * 8) % twoPow64) % twoPow64) + k * 8) = 0)) := by
  obtain ⟨hA, hB⟩ := clearAux_main gas pt pa s e pt' freed h hnodup hsep
  refine ⟨?_, hA, hB⟩
  unfold PageTables.clear_page_table_range
  rw [h]
  rfl

/-- Witness state for subtree clearing: the table page at 0x1000 has slot 0
pointing to a child table at 0x2000 whose slots are all invalid. -/
def ptW4 : PageTables :=
  { mem := fun a => if a = 0x1000 then 0x801 else 0,
    root_page_tables := fun _ => 0x4000,
    free_list_head := NULL_PAGE_PTR }

/-- A `clearAux` run over a range none of whose slots holds a pointer entry
succeeds with enough gas and frees nothing. -/
theorem clearAux_no_pointer_run (gas : Nat) : ∀ (pt : PageTables) (pa s e : Nat),
    (∀ i, s ≤ i → i < e →
      (pt.mem ((pa + i * 8) % twoPow64) % twoPow64) &&& PTE_RWXV ≠ PTE_VALID) →
    s ≤ e → e ≤ 512 → e - s < gas →
    ∃ pt', clearAux gas pt pa s e = some (pt', []) := by
  induction gas with
  | zero =>
    intro pt pa s e hnp hse he512 hgas
    omega
  | succ gas ih =>
    intro pt pa s e hnp hse he512 hgas
    by_cases hlt : s < e
    · have hval := hnp s (le_refl s) hlt
      have hnp2 : ∀ i, s + 1 ≤ i → i < e →
          ((pt.set_invalid_pte ((pa + s * 8) % twoPow64) 0).mem
            ((pa + i * 8) % twoPow64) % twoPow64) &&& PTE_RWXV ≠ PTE_VALID := by
        intro i hsi hie
        have hne : (pa + i * 8) % twoPow64 ≠ (pa + s * 8) % twoPow64 :=
          slotAddr_ne pa i s (by omega) (by omega) (by omega)
        have hk : (pt.set_invalid_pte ((pa + s * 8) % twoPow64) 0).mem
            ((pa + i * 8) % twoPow64) = pt.mem ((pa + i * 8) % twoPow64) :=
          writeWord_other _ _ _ _ hne
        rw [hk]
        exact hnp i (by omega) hie
      obtain ⟨pt', hrun⟩ := ih (pt.set_invalid_pte ((pa + s * 8) % twoPow64) 0)
        pa (s + 1) e hnp2 (by omega) he512 (by omega)
      refine ⟨pt', ?_⟩
      unfold clearAux
      rw [if_neg (not_not_intro ⟨hse, he512⟩), if_pos hlt, if_neg hval]
      exact hrun
    · refine ⟨pt, ?_⟩
      unfold clearAux
      rw [if_neg (not_not_intro ⟨hse, he512⟩), if_neg hlt]

theorem clear_page_table_range_spec_witness :
    ∃ pt2 freed, clearAux 515 ptW4 0x1000 0 1 = some (pt2, freed) ∧
      pt2.mem 0x1000 = 0 ∧ 0x2000 ∈ freed ∧
      (∀ k, 1 ≤ k → k < 512 → pt2.mem (0x2000 + k * 8) = 0) := by
  have h64 : twoPow64 = 18446744073709551616 := by norm_num [twoPow64]
  have hnp : ∀ i, 0 ≤ i → i < 512 →
      (ptW4.mem ((0x2000 + i * 8) % twoPow64) % twoPow64) &&& PTE_RWXV ≠ PTE_VALID := by
    intro i _ hi
    have hmod : ((0x2000 : Nat) + i * 8) % twoPow64 = 0x2000 + i * 8 :=
      Nat.mod_eq_of_lt (by omega)
    rw [hmod]
    show ((if (0x2000 : Nat) + i * 8 = 0x1000 then (0x801 : Nat) else 0) % twoPow64) &&&
      PTE_RWXV ≠ PTE_VALID
    rw [if_neg (by omega)]
    decide
  obtain ⟨pt1, hchild⟩ := clearAux_no_pointer_run 514 ptW4 0x2000 0 512 hnp
    (Nat.zero_le _) (le_refl _) (by omega)
  have hptr : (ptW4.mem ((0x1000 + 0 * 8) % twoPow64) % twoPow64) &&& PTE_RWXV =
      PTE_VALID := by decide
  have hcval : pteChild (ptW4.mem ((0x1000 + 0 * 8) % twoPow64) % twoPow64) = 0x2000 := by
    decide
  have htail : clearAux 514
      ((pt1.free_page 0x2000).set_invalid_pte ((0x1000 + 0 * 8) % twoPow64) 0)
      0x1000 1 1 = some
        ((pt1.free_page 0x2000).set_invalid_pte ((0x1000 + 0 * 8) % twoPow64) 0, []) := by
    unfold clearAux
    rw [if_neg (not_not_intro ⟨by omega, by omega⟩), if_neg (by omega)]
  have hrun : clearAux 515 ptW4 0x1000 0 1 = some
      ((pt1.free_page 0x2000).set_invalid_pte ((0x1000 + 0 * 8) % twoPow64) 0,
        [0x2000]) := by
    show clearAux (514 + 1) ptW4 0x1000 0 1 = _
    unfold clearAux
    rw [if_neg (not_not_intro ⟨by omega, by omega⟩), if_pos (by omega), if_pos hptr,
      hcval]
    simp only [hchild, htail]
    rfl
  have hspec := clear_page_table_range_spec 515 ptW4 0x1000 0 1
    ((pt1.free_page 0x2000).set_invalid_pte ((0x1000 + 0 * 8) % twoPow64) 0)
    [0x2000] hrun (by decide)
    (by
      intro f hf i h0 h1
      have hf2 : f = 0x2000 := by simpa using hf
      have hi : i = 0 := by omega
      subst hf2
      subst hi
      decide)
  have hslot : ((0x1000 : Nat) + 0 * 8) % twoPow64 = 0x1000 := by decide
  have hptr0 : (ptW4.mem ((0x1000 + 0 * 8) % twoPow64) % twoPow64) &&& PTE_RWXV =
      PTE_VALID := by decide
  refine ⟨_, [0x2000], hrun, ?_, ?_, ?_⟩
  · have := hspec.2.1 0 (le_refl 0) (by omega)
    rw [hslot] at this
    exact this
  · have := (hspec.2.2 0 (le_refl 0) (by omega) hptr0).1
    rw [hcval] at this
    exact this
  · have := (hspec.2.2 0 (le_refl 0) (by omega) hptr0).2
    rw [hcval] at this
    exact this

/-- `flush_shadow_page_table` from the source: clear the non-direct-map
top-level entry range `[0, DIRECT_MAP_PT_INDEX/8)` of the UVA, KVA and MVA
roots in turn (the MPA root is not touched).  The trailing `sfence_vma()`
is a hardware translation-cache invalidation with no effect on the memory
state modelled here. -/
def flush_shadow_page_table (gas : Nat) (pt : PageTables) :
    Option (PageTables × List Nat) :=
  match clearAux gas pt (pt.root_pa PageTableRoot.UVA) 0 (DIRECT_MAP_PT_INDEX / 8) with
  | none => none
  | some (pt1, f1) =>
    match clearAux gas pt1 (pt1.root_pa PageTableRoot.KVA) 0 (DIRECT_MAP_PT_INDEX / 8) with
    | none => none
    | some (pt2, f2) =>
      match clearAux gas pt2 (pt2.root_pa PageTableRoot.MVA) 0 (DIRECT_MAP_PT_INDEX / 8) with
      | none => none
      | some (pt3, f3) => some (pt3, f1 ++ f2 ++ f3)

/-- An address inside a root page that a `clearAux` call does not target
(either a different page, or the same page at a slot index at or above the
cleared range) is left unchanged, provided the freed pages are aligned and
distinct from the root page. -/
theorem clear_preserves_root_addr (gas : Nat) (pt pt' : PageTables) (pa e : Nat)
    (freed : List Nat) (h : clearAux gas pt pa 0 e = some (pt', freed))
    (root i : Nat)
    (hroot : root % 4096 = 0) (hrootlt : root + 4096 ≤ twoPow64) (hi : i < 512)
    (hpa : pa % 4096 = 0) (hpalt : pa + 4096 ≤ twoPow64) (he : e ≤ 496)
    (hcase : pa ≠ root ∨ (pa = root ∧ 496 ≤ i))
    (hfr : ∀ f ∈ freed, f ≠ root) :
    pt'.mem (root + i * 8) = pt.mem (root + i * 8) := by
  have hfreed := clearAux_freed_aligned gas pt pa 0 e pt' freed h
  obtain ⟨_, hm⟩ := clearAux_frame gas pt pa 0 e pt' freed h
  rcases hm (root + i * 8) with heq | ⟨_, hloc⟩
  · exact heq
  exfalso
  have h64 : twoPow64 = 18446744073709551616 := by norm_num [twoPow64]
  rcases hloc with ⟨j, _, hje, hja⟩ | ⟨f, hf, hfa, haf⟩
  · have hj : (pa + j * 8) % twoPow64 = pa + j * 8 := Nat.mod_eq_of_lt (by omega)
    rw [hj] at hja
    rcases hcase with hne | ⟨heq2, hge⟩
    · omega
    · omega
  · obtain ⟨hfal, hflt⟩ := hfreed f hf
    have hfal2 : f % 4096 = 0 := hfal
    have hfr2 : f ≠ root := hfr f hf
    have hP : PAGE_SIZE = 4096 := rfl
    omega

/-- Inverting a successful flush into its three component `clearAux` runs. -/
theorem flush_shadow_page_table_eq_of_runs (gas : Nat) (pt pt1 pt2 pt3 : PageTables)
    (f1 f2 f3 : List Nat)
    (h1 : clearAux gas pt (pt.root_pa PageTableRoot.UVA) 0 (DIRECT_MAP_PT_INDEX / 8) =
      some (pt1, f1))
    (h2 : clearAux gas pt1 (pt1.root_pa PageTableRoot.KVA) 0 (DIRECT_MAP_PT_INDEX / 8) =
      some (pt2, f2))
    (h3 : clearAux gas pt2 (pt2.root_pa PageTableRoot.MVA) 0 (DIRECT_MAP_PT_INDEX / 8) =
      some (pt3, f3)) :
    flush_shadow_page_table gas pt = some (pt3, f1 ++ f2 ++ f3) := by
  unfold flush_shadow_page_table
  simp only [h1, h2, h3]

/-- A `clearAux` run over a state whose memory reads all-zero succeeds with
enough gas, frees nothing, and leaves memory all-zero. -/
theorem clearAux_zero_run (gas : Nat) : ∀ (pt : PageTables) (pa s e : Nat),
    (∀ a, pt.mem a = 0) → s ≤ e → e ≤ 512 → e - s < gas →
    ∃ pt', clearAux gas pt pa s e = some (pt', []) ∧ (∀ a, pt'.mem a = 0) ∧
      pt'.root_page_tables = pt.root_page_tables ∧
      pt'.free_list_head = pt.free_list_head := by
  induction gas with
  | zero =>
    intro pt pa s e hzero hse he512 hgas
    omega
  | succ gas ih =>
    intro pt pa s e hzero hse he512 hgas
    by_cases hlt : s < e
    · have hval : (pt.mem ((pa + s * 8) % twoPow64) % twoPow64) &&& PTE_RWXV ≠
          PTE_VALID := by
        rw [hzero]
        decide
      have hzero2 : ∀ a, (pt.set_invalid_pte ((pa + s * 8) % twoPow64) 0).mem a = 0 := by
        intro a
        show writeWord pt.mem ((pa + s * 8) % twoPow64) 0 a = 0
        unfold writeWord
        split
        · rfl
        · exact hzero a
      obtain ⟨pt', hrun, hz, hr, hh⟩ := ih (pt.set_invalid_pte ((pa + s * 8) % twoPow64) 0)
        pa (s + 1) e (hzero2) (by omega) he512 (by omega)
      refine ⟨pt', ?_, hz, hr.trans rfl, hh.trans rfl⟩
      unfold clearAux
      rw [if_neg (not_not_intro ⟨hse, he512⟩), if_pos hlt, if_neg hval]
      exact hrun
    · refine ⟨pt, ?_, hzero, rfl, rfl⟩
      unfold clearAux
      rw [if_neg (not_not_intro ⟨hse, he512⟩), if_neg hlt]

/-- C7: `flush_shadow_page_table` clears exactly the top-level entry range
`[0, DIRECT_MAP_PT_INDEX/8)` (slots 0..495) of the UVA, KVA and MVA roots;
the direct-map top-level slots (index 496 and above, which include the
hypervisor-code slot 511) of those three roots, and every slot of the MPA
root, are left unchanged.  The trailing `sfence_vma` is the single global
translation-cache invalidation; it does not touch memory and lies outside
the state modelled here.  The hypotheses (roots aligned, in range, pairwise
distinct; freed pages distinct and distinct from every root) hold in any
well-formed shadow-table state. -/
theorem flush_shadow_page_table_spec (gas : Nat) (pt ptF : PageTables)
    (freed : List Nat)
    (h : flush_shadow_page_table gas pt = some (ptF, freed))
    (hal : ∀ r : PageTableRoot, pt.root_pa r % 4096 = 0 ∧ pt.root_pa r + 4096 ≤ twoPow64)
    (hdist : ∀ r r2 : PageTableRoot, r ≠ r2 → pt.root_pa r ≠ pt.root_pa r2)
    (hnodup : freed.Nodup)
    (hfr : ∀ f ∈ freed, ∀ r : PageTableRoot, f ≠ pt.root_pa r) :
    (∀ i, i < DIRECT_MAP_PT_INDEX / 8 →
      ptF.mem (pt.root_pa PageTableRoot.UVA + i * 8) = 0 ∧
      ptF.mem (pt.root_pa PageTableRoot.KVA + i * 8) = 0 ∧
      ptF.mem (pt.root_pa PageTableRoot.MVA + i * 8) = 0) ∧
    (∀ i, DIRECT_MAP_PT_INDEX / 8 ≤ i → i < 512 →
      ptF.mem (pt.root_pa PageTableRoot.UVA + i * 8) =
        pt.mem (pt.root_pa PageTableRoot.UVA + i * 8) ∧
      ptF.mem (pt.root_pa PageTableRoot.KVA + i * 8) =
        pt.mem (pt.root_pa PageTableRoot.KVA + i * 8) ∧
      ptF.mem (pt.root_pa PageTableRoot.MVA + i * 8) =
        pt.mem (pt.root_pa PageTableRoot.MVA + i * 8)) ∧
    (∀ i, i < 512 →
      ptF.mem (pt.root_pa PageTableRoot.MPA + i * 8) =
        pt.mem (pt.root_pa PageTableRoot.MPA + i * 8)) := by
  have hDM : DIRECT_MAP_PT_INDEX / 8 = 496 := by norm_num [DIRECT_MAP_PT_INDEX]
  have hP : PAGE_SIZE = 4096 := rfl
  have h64 : twoPow64 = 18446744073709551616 := by norm_num [twoPow64]
  unfold flush_shadow_page_table at h
  cases h1 : clearAux gas pt (pt.root_pa PageTableRoot.UVA) 0 (DIRECT_MAP_PT_INDEX / 8) with
  | none =>
    simp only [h1] at h
    exact Option.noConfusion h
  | some r1 =>
  obtain ⟨pt1, f1⟩ := r1
  simp only [h1] at h
  obtain ⟨hr1, _⟩ := clearAux_frame gas pt _ 0 _ pt1 f1 h1
  have hpa1 : ∀ r, pt1.root_pa r = pt.root_pa r := fun r => by
    unfold PageTables.root_pa
    rw [hr1]
  rw [hpa1] at h
  cases h2 : clearAux gas pt1 (pt.root_pa PageTableRoot.KVA) 0 (DIRECT_MAP_PT_INDEX / 8) with
  | none =>
    simp only [h2] at h
    exact Option.noConfusion h
  | some r2 =>
  obtain ⟨pt2, f2⟩ := r2
  simp only [h2] at h
  obtain ⟨hr2, _⟩ := clearAux_frame gas pt1 _ 0 _ pt2 f2 h2
  have hpa2 : ∀ r, pt2.root_pa r = pt.root_pa r := fun r => by
    unfold PageTables.root_pa
    rw [hr2]
    exact hpa1 r
  rw [hpa2] at h
  cases h3 : clearAux gas pt2 (pt.root_pa PageTableRoot.MVA) 0 (DIRECT_MAP_PT_INDEX / 8) with
  | none =>
    simp only [h3] at h
    exact Option.noConfusion h
  | some r3 =>
  obtain ⟨pt3, f3⟩ := r3
  simp only [h3] at h
  injection h with h4
  injection h4 with hPF hFr
  subst hPF
  subst hFr
  have hm1f : ∀ f ∈ f1, ∀ r, f ≠ pt.root_pa r := fun f hf r =>
    hfr f (List.mem_append.mpr (Or.inl (List.mem_append.mpr (Or.inl hf)))) r
  have hm2f : ∀ f ∈ f2, ∀ r, f ≠ pt.root_pa r := fun f hf r =>
    hfr f (List.mem_append.mpr (Or.inl (List.mem_append.mpr (Or.inr hf)))) r
  have hm3f : ∀ f ∈ f3, ∀ r, f ≠ pt.root_pa r := fun f hf r =>
    hfr f (List.mem_append.mpr (Or.inr hf)) r
  have hnd1 : f1.Nodup := (hnodup.of_append_left).of_append_left
  have hnd2 : f2.Nodup := List.Nodup.of_append_right (hnodup.of_append_left)
  have hnd3 : f3.Nodup := List.Nodup.of_append_right hnodup
  obtain ⟨alU, ltU⟩ := hal PageTableRoot.UVA
  obtain ⟨alK, ltK⟩ := hal PageTableRoot.KVA
  obtain ⟨alM, ltM⟩ := hal PageTableRoot.MVA
  obtain ⟨alP, ltP⟩ := hal PageTableRoot.MPA
  have hdKU : pt.root_pa PageTableRoot.KVA ≠ pt.root_pa PageTableRoot.UVA :=
    hdist _ _ (by decide)
  have hdMU : pt.root_pa PageTableRoot.MVA ≠ pt.root_pa PageTableRoot.UVA :=
    hdist _ _ (by decide)
  have hdUK : pt.root_pa PageTableRoot.UVA ≠ pt.root_pa PageTableRoot.KVA :=
    hdist _ _ (by decide)
  have hdMK : pt.root_pa PageTableRoot.MVA ≠ pt.root_pa PageTableRoot.KVA :=
    hdist _ _ (by decide)
  have hdUM : pt.root_pa PageTableRoot.UVA ≠ pt.root_pa PageTableRoot.MVA :=
    hdist _ _ (by decide)
  have hdKM : pt.root_pa PageTableRoot.KVA ≠ pt.root_pa PageTableRoot.MVA :=
    hdist _ _ (by decide)
  have hdUP : pt.root_pa PageTableRoot.UVA ≠ pt.root_pa PageTableRoot.MPA :=
    hdist _ _ (by decide)
  have hdKP : pt.root_pa PageTableRoot.KVA ≠ pt.root_pa PageTableRoot.MPA :=
    hdist _ _ (by decide)
  have hdMP : pt.root_pa PageTableRoot.MVA ≠ pt.root_pa PageTableRoot.MPA :=
    hdist _ _ (by decide)
  have hsepgen : ∀ (st st2 : PageTables) (fx : List Nat) (root : Nat),
      clearAux gas st root 0 (DIRECT_MAP_PT_INDEX / 8) = some (st2, fx) →
      root % 4096 = 0 → root + 4096 ≤ twoPow64 →
      (∀ f ∈ fx, f ≠ root) →
      (∀ f ∈ fx, ∀ i, 0 ≤ i → i < DIRECT_MAP_PT_INDEX / 8 →
        ¬ (f ≤ (root + i * 8) % twoPow64 ∧ (root + i * 8) % twoPow64 < f + PAGE_SIZE)) := by
    intro st st2 fx root hrun hral hrlt hfne f hf i _ hi hcon
    obtain ⟨hfal, hflt⟩ := clearAux_freed_aligned gas st root 0 _ st2 fx hrun f hf
    have hfal2 : f % 4096 = 0 := hfal
    have hfne2 : f ≠ root := hfne f hf
    rw [hDM] at hi
    have hmod : (root + i * 8) % twoPow64 = root + i * 8 := Nat.mod_eq_of_lt (by omega)
    rw [hmod, hP] at hcon
    omega
  obtain ⟨AU, _⟩ := clearAux_main gas pt (pt.root_pa PageTableRoot.UVA) 0
    (DIRECT_MAP_PT_INDEX / 8) pt1 f1 h1 hnd1
    (hsepgen pt pt1 f1 _ h1 alU (by omega) (fun f hf => hm1f f hf PageTableRoot.UVA))
  obtain ⟨AK, _⟩ := clearAux_main gas pt1 (pt.root_pa PageTableRoot.KVA) 0
    (DIRECT_MAP_PT_INDEX / 8) pt2 f2 h2 hnd2
    (hsepgen pt1 pt2 f2 _ h2 alK (by omega) (fun f hf => hm2f f hf PageTableRoot.KVA))
  obtain ⟨AM, _⟩ := clearAux_main gas pt2 (pt.root_pa PageTableRoot.MVA) 0
    (DIRECT_MAP_PT_INDEX / 8) pt3 f3 h3 hnd3
    (hsepgen pt2 pt3 f3 _ h3 alM (by omega) (fun f hf => hm3f f hf PageTableRoot.MVA))
  refine ⟨?_, ?_, ?_⟩
  · intro i hi
    have hi496 : i < 496 := by rw [hDM] at hi; exact hi
    have hmodU : (pt.root_pa PageTableRoot.UVA + i * 8) % twoPow64 =
        pt.root_pa PageTableRoot.UVA + i * 8 := Nat.mod_eq_of_lt (by omega)
    have hmodK : (pt.root_pa PageTableRoot.KVA + i * 8) % twoPow64 =
        pt.root_pa PageTableRoot.KVA + i * 8 := Nat.mod_eq_of_lt (by omega)
    have hmodM : (pt.root_pa PageTableRoot.MVA + i * 8) % twoPow64 =
        pt.root_pa PageTableRoot.MVA + i * 8 := Nat.mod_eq_of_lt (by omega)
    refine ⟨?_, ?_, ?_⟩
    · have hz1 := AU i (by omega) hi
      rw [hmodU] at hz1
      have hz2 : pt2.mem (pt.root_pa PageTableRoot.UVA + i * 8) =
          pt1.mem (pt.root_pa PageTableRoot.UVA + i * 8) :=
        clear_preserves_root_addr gas pt1 pt2 _ _ f2 h2 _ i alU ltU (by omega) alK ltK
          hDM.le (Or.inl hdKU) (fun f hf => hm2f f hf PageTableRoot.UVA)
      have hz3 : pt3.mem (pt.root_pa PageTableRoot.UVA + i * 8) =
          pt2.mem (pt.root_pa PageTableRoot.UVA + i * 8) :=
        clear_preserves_root_addr gas pt2 pt3 _ _ f3 h3 _ i alU ltU (by omega) alM ltM
          hDM.le (Or.inl hdMU) (fun f hf => hm3f f hf PageTableRoot.UVA)
      rw [hz3, hz2, hz1]
    · have hz1 := AK i (by omega) hi
      rw [hmodK] at hz1
      have hz3 : pt3.mem (pt.root_pa PageTableRoot.KVA + i * 8) =
          pt2.mem (pt.root_pa PageTableRoot.KVA + i * 8) :=
        clear_preserves_root_addr gas pt2 pt3 _ _ f3 h3 _ i alK ltK (by omega) alM ltM
          hDM.le (Or.inl hdMK) (fun f hf => hm3f f hf PageTableRoot.KVA)
      rw [hz3, hz1]
    · have hz1 := AM i (by omega) hi
      rw [hmodM] at hz1
      exact hz1
  · intro i hge hi
    have hge496 : 496 ≤ i := by rw [hDM] at hge; exact hge
    refine ⟨?_, ?_, ?_⟩
    · have e1 : pt1.mem (pt.root_pa PageTableRoot.UVA + i * 8) =
          pt.mem (pt.root_pa PageTableRoot.UVA + i * 8) :=
        clear_preserves_root_addr gas pt pt1 _ _ f1 h1 _ i alU ltU (by omega) alU ltU
          hDM.le (Or.inr ⟨rfl, hge496⟩) (fun f hf => hm1f f hf PageTableRoot.UVA)
      have e2 : pt2.mem (pt.root_pa PageTableRoot.UVA + i * 8) =
          pt1.mem (pt.root_pa PageTableRoot.UVA + i * 8) :=
        clear_preserves_root_addr gas pt1 pt2 _ _ f2 h2 _ i alU ltU (by omega) alK ltK
          hDM.le (Or.inl hdKU) (fun f hf => hm2f f hf PageTableRoot.UVA)
      have e3 : pt3.mem (pt.root_pa PageTableRoot.UVA + i * 8) =
          pt2.mem (pt.root_pa PageTableRoot.UVA + i * 8) :=
        clear_preserves_root_addr gas pt2 pt3 _ _ f3 h3 _ i alU ltU (by omega) alM ltM
          hDM.le (Or.inl hdMU) (fun f hf => hm3f f hf PageTableRoot.UVA)
      rw [e3, e2, e1]
    · have e1 : pt1.mem (pt.root_pa PageTableRoot.KVA + i * 8) =
          pt.mem (pt.root_pa PageTableRoot.KVA + i * 8) :=
        clear_preserves_root_addr gas pt pt1 _ _ f1 h1 _ i alK ltK (by omega) alU ltU
          hDM.le (Or.inl hdUK) (fun f hf => hm1f f hf PageTableRoot.KVA)
      have e2 : pt2.mem (pt.root_pa PageTableRoot.KVA + i * 8) =
          pt1.mem (pt.root_pa PageTableRoot.KVA + i * 8) :=
        clear_preserves_root_addr gas pt1 pt2 _ _ f2 h2 _ i alK ltK (by omega) alK ltK
          hDM.le (Or.inr ⟨rfl, hge496⟩) (fun f hf => hm2f f hf PageTableRoot.KVA)
      have e3 : pt3.mem (pt.root_pa PageTableRoot.KVA + i * 8) =
          pt2.mem (pt.root_pa PageTableRoot.KVA + i * 8) :=
        clear_preserves_root_addr gas pt2 pt3 _ _ f3 h3 _ i alK ltK (by omega) alM ltM
          hDM.le (Or.inl hdMK) (fun f hf => hm3f f hf PageTableRoot.KVA)
      rw [e3, e2, e1]
    · have e1 : pt1.mem (pt.root_pa PageTableRoot.MVA + i * 8) =
          pt.mem (pt.root_pa PageTableRoot.MVA + i * 8) :=
        clear_preserves_root_addr gas pt pt1 _ _ f1 h1 _ i alM ltM (by omega) alU ltU
          hDM.le (Or.inl hdUM) (fun f hf => hm1f f hf PageTableRoot.MVA)
      have e2 : pt2.mem (pt.root_pa PageTableRoot.MVA + i * 8) =
          pt1.mem (pt.root_pa PageTableRoot.MVA + i * 8) :=
        clear_preserves_root_addr gas pt1 pt2 _ _ f2 h2 _ i alM ltM (by omega) alK ltK
          hDM.le (Or.inl hdKM) (fun f hf => hm2f f hf PageTableRoot.MVA)
      have e3 : pt3.mem (pt.root_pa PageTableRoot.MVA + i * 8) =
          pt2.mem (pt.root_pa PageTableRoot.MVA + i * 8) :=
        clear_preserves_root_addr gas pt2 pt3 _ _ f3 h3 _ i alM ltM (by omega) alM ltM
          hDM.le (Or.inr ⟨rfl, hge496⟩) (fun f hf => hm3f f hf PageTableRoot.MVA)
      rw [e3, e2, e1]
  · intro i hi
    have e1 : pt1.mem (pt.root_pa PageTableRoot.MPA + i * 8) =
        pt.mem (pt.root_pa PageTableRoot.MPA + i * 8) :=
      clear_preserves_root_addr gas pt pt1 _ _ f1 h1 _ i alP ltP (by omega) alU ltU
        hDM.le (Or.inl hdUP) (fun f hf => hm1f f hf PageTableRoot.MPA)
    have e2 : pt2.mem (pt.root_pa PageTableRoot.MPA + i * 8) =
        pt1.mem (pt.root_pa PageTableRoot.MPA + i * 8) :=
      clear_preserves_root_addr gas pt1 pt2 _ _ f2 h2 _ i alP ltP (by omega) alK ltK
        hDM.le (Or.inl hdKP) (fun f hf => hm2f f hf PageTableRoot.MPA)
    have e3 : pt3.mem (pt.root_pa PageTableRoot.MPA + i * 8) =
        pt2.mem (pt.root_pa PageTableRoot.MPA + i * 8) :=
      clear_preserves_root_addr gas pt2 pt3 _ _ f3 h3 _ i alP ltP (by omega) alM ltM
        hDM.le (Or.inl hdMP) (fun f hf => hm3f f hf PageTableRoot.MPA)
    rw [e3, e2, e1]

/-- Witness state for the flush: four distinct aligned root pages over an
all-zero memory. -/
def ptW7 : PageTables :=
  { mem := fun _ => 0,
    root_page_tables := fun i =>
      if i = 0 then 0x1000 else if i = 1 then 0x2000 else if i = 2 then 0x3000
      else 0x4000,
    free_list_head := NULL_PAGE_PTR }

theorem flush_shadow_page_table_spec_witness :
    ∃ ptF freed, flush_shadow_page_table 497 ptW7 = some (ptF, freed) ∧
      (∀ i, i < DIRECT_MAP_PT_INDEX / 8 →
        ptF.mem (ptW7.root_pa PageTableRoot.UVA + i * 8) = 0 ∧
        ptF.mem (ptW7.root_pa PageTableRoot.KVA + i * 8) = 0 ∧
        ptF.mem (ptW7.root_pa PageTableRoot.MVA + i * 8) = 0) ∧
      (∀ i, i < 512 →
        ptF.mem (ptW7.root_pa PageTableRoot.MPA + i * 8) =
          ptW7.mem (ptW7.root_pa PageTableRoot.MPA + i * 8)) := by
  have hz : ∀ a, ptW7.mem a = 0 := fun a => rfl
  have hDMle : DIRECT_MAP_PT_INDEX / 8 ≤ 512 := by norm_num [DIRECT_MAP_PT_INDEX]
  have hDMlt : DIRECT_MAP_PT_INDEX / 8 - 0 < 497 := by norm_num [DIRECT_MAP_PT_INDEX]
  obtain ⟨pt1, hrun1, hz1, hr1, _⟩ := clearAux_zero_run 497 ptW7
    (ptW7.root_pa PageTableRoot.UVA) 0 (DIRECT_MAP_PT_INDEX / 8) hz (Nat.zero_le _)
    hDMle hDMlt
  obtain ⟨pt2, hrun2, hz2, hr2, _⟩ := clearAux_zero_run 497 pt1
    (pt1.root_pa PageTableRoot.KVA) 0 (DIRECT_MAP_PT_INDEX / 8) hz1 (Nat.zero_le _)
    hDMle hDMlt
  obtain ⟨pt3, hrun3, hz3, hr3, _⟩ := clearAux_zero_run 497 pt2
    (pt2.root_pa PageTableRoot.MVA) 0 (DIRECT_MAP_PT_INDEX / 8) hz2 (Nat.zero_le _)
    hDMle hDMlt
  have hflush : flush_shadow_page_table 497 ptW7 = some (pt3, []) :=
    flush_shadow_page_table_eq_of_runs 497 ptW7 pt1 pt2 pt3 [] [] [] hrun1 hrun2 hrun3
  have hal : ∀ r : PageTableRoot, ptW7.root_pa r % 4096 = 0 ∧
      ptW7.root_pa r + 4096 ≤ twoPow64 := by
    intro r
    cases r <;> exact ⟨by decide, by decide⟩
  have hdist : ∀ r r2 : PageTableRoot, r ≠ r2 → ptW7.root_pa r ≠ ptW7.root_pa r2 := by
    intro r r2 hne
    cases r <;> cases r2 <;> first
      | exact absurd rfl hne
      | decide
  have hspec := flush_shadow_page_table_spec 497 ptW7 pt3 [] hflush hal hdist
    List.nodup_nil (fun f hf => absurd hf (List.not_mem_nil f))
  exact ⟨pt3, [], hflush, hspec.1, hspec.2.2⟩

/-- A real backing-region page: 4096-byte aligned, entirely below `2^64`
(strictly, so the `alloc_page` zeroing loop bound cannot wrap). -/
def pageOK (p : Nat) : Prop := p % PAGE_SIZE = 0 ∧ p + PAGE_SIZE < twoPow64

instance (p : Nat) : Decidable (pageOK p) := by
  unfold pageOK; infer_instance

/-- The 64-bit word stored in slot `i` of the table page at `p`. -/
def slotWord (m : Nat → Nat) (p i : Nat) : Nat := m (p + i * 8) % twoPow64

/-- Whether slot `i` of the table page at `p` holds a valid pointer entry
(VALID set, READ/WRITE/EXECUTE clear) — the test `clear_page_table_range`
applies to decide whether to recurse. -/
def isPtrSlot (m : Nat → Nat) (p i : Nat) : Bool :=
  slotWord m p i &&& PTE_RWXV == PTE_VALID

/-- The child table page a slot points to. -/
def childAt (m : Nat → Nat) (p i : Nat) : Nat := pteChild (slotWord m p i)

/-- The child pages referenced by the pointer entries of the table page at
`p`, one occurrence per referencing slot, in slot order. -/
def childrenOf (m : Nat → Nat) (p : Nat) : List Nat :=
  ((List.range 512).filter (isPtrSlot m p)).map (childAt m p)

/-- The four root pages, in `root_page_tables` index order. -/
def rootsList (pt : PageTables) : List Nat :=
  [pt.root_pa PageTableRoot.MPA, pt.root_pa PageTableRoot.UVA,
   pt.root_pa PageTableRoot.KVA, pt.root_pa PageTableRoot.MVA]

/-- The mid-level table pages: every child of a root, one occurrence per
referencing slot. -/
def level1Tables (pt : PageTables) : List Nat :=
  (rootsList pt).flatMap (childrenOf pt.mem)

/-- The leaf-level table pages: every child of a mid-level table, one
occurrence per referencing slot. -/
def level2Tables (pt : PageTables) : List Nat :=
  (level1Tables pt).flatMap (childrenOf pt.mem)

/-- Every ownership occurrence in the state: each root, each table-slot
reference at either level, and each free-list position.  A page holds
multiple ownership states at once exactly when it occurs more than once in
this list. -/
def ownedPages (pt : PageTables) (freeL : List Nat) : List Nat :=
  rootsList pt ++ level1Tables pt ++ level2Tables pt ++ freeL

/-- The free list as laid out in memory: starting from a head pointer, each
page's first slot holds the next head, down to `NULL_PAGE_PTR`. -/
inductive freeChain (m : Nat → Nat) : Nat → List Nat → Prop
  | nil : freeChain m NULL_PAGE_PTR []
  | cons {p : Nat} {l : List Nat} (hne : p ≠ NULL_PAGE_PTR)
      (htail : freeChain m (m p % twoPow64) l) : freeChain m p (p :: l)

/-- Single ownership (claim C5): the free-list words spell out `freeL`,
every owned page is a real page, no page is owned twice (so none is
simultaneously free and referenced, or referenced from two slots), and the
table forest has the two-level shape `pte_for_addr` builds (leaf-level
tables contain no pointer entries). -/
def singleOwnership (pt : PageTables) (freeL : List Nat) : Prop :=
  freeChain pt.mem pt.free_list_head freeL ∧
  (∀ p ∈ ownedPages pt freeL, pageOK p) ∧
  (∀ x, (ownedPages pt freeL).count x ≤ 1) ∧
  (∀ p ∈ level2Tables pt, childrenOf pt.mem p = [])

theorem pageOK_slot_ne (p q i j : Nat) (hp : p % PAGE_SIZE = 0) (hq : q % PAGE_SIZE = 0)
    (hne : p ≠ q) (hi : i < 512) (hj : j < 512) : p + i * 8 ≠ q + j * 8 := by
  have hp4096 : p % 4096 = 0 := hp
  have hq4096 : q % 4096 = 0 := hq
  omega

theorem childrenOf_congr (m1 m2 : Nat → Nat) (p : Nat)
    (h : ∀ i, i < 512 → m1 (p + i * 8) = m2 (p + i * 8)) :
    childrenOf m1 p = childrenOf m2 p := by
  unfold childrenOf
  have hf : (List.range 512).filter (isPtrSlot m1 p) =
      (List.range 512).filter (isPtrSlot m2 p) := by
    apply List.filter_congr
    intro i hi
    have hi512 : i < 512 := List.mem_range.mp hi
    unfold isPtrSlot slotWord
    rw [h i hi512]
  rw [hf]
  apply List.map_congr_left
  intro i hi
  have hi512 : i < 512 := List.mem_range.mp (List.mem_of_mem_filter hi)
  unfold childAt slotWord
  rw [h i hi512]

theorem childrenOf_write_other (m : Nat → Nat) (p a v : Nat)
    (h : ∀ i, i < 512 → a ≠ p + i * 8) :
    childrenOf (writeWord m a v) p = childrenOf m p :=
  childrenOf_congr _ _ _ fun i hi => writeWord_other m a v _ (Ne.symm (h i hi))

theorem childrenOf_eq_nil_iff (m : Nat → Nat) (p : Nat) :
    childrenOf m p = [] ↔ ∀ i, i < 512 → isPtrSlot m p i = false := by
  unfold childrenOf
  rw [List.map_eq_nil_iff, List.filter_eq_nil_iff]
  constructor
  · intro h i hi
    exact Bool.eq_false_iff.mpr (h i (List.mem_range.mpr hi))
  · intro h i hi
    exact Bool.eq_false_iff.mp (h i (List.mem_range.mp hi))

theorem childAt_mem_childrenOf (m : Nat → Nat) (p i : Nat) (hi : i < 512)
    (hptr : isPtrSlot m p i = true) : childAt m p i ∈ childrenOf m p := by
  unfold childrenOf
  exact List.mem_map_of_mem _ (List.mem_filter.mpr ⟨List.mem_range.mpr hi, hptr⟩)

theorem freeChain_congr (m1 m2 : Nat → Nat) (h l) (hc : freeChain m1 h l)
    (heq : ∀ q ∈ l, m1 q = m2 q) : freeChain m2 h l := by
  induction hc with
  | nil => exact freeChain.nil
  | cons hne htail ih =>
    rename_i p l2
    refine freeChain.cons hne ?_
    rw [← heq p (List.mem_cons_self _ _)]
    exact ih fun q hq => heq q (List.mem_cons_of_mem _ hq)

theorem freeChain_head_cases (m : Nat → Nat) (h l) (hc : freeChain m h l) :
    (h = NULL_PAGE_PTR ∧ l = []) ∨ ∃ l2, l = h :: l2 ∧ h ≠ NULL_PAGE_PTR ∧
      freeChain m (m h % twoPow64) l2 := by
  cases hc with
  | nil => exact Or.inl ⟨rfl, rfl⟩
  | cons hne htail => exact Or.inr ⟨_, rfl, hne, htail⟩

theorem countP_update (p q : Nat → Bool) (j : Nat) : ∀ (l : List Nat),
    l.Nodup → j ∈ l → (∀ i ∈ l, i ≠ j → p i = q i) →
    l.countP q + (if p j then 1 else 0) = l.countP p + (if q j then 1 else 0) := by
  intro l
  induction l with
  | nil => intro _ hj; exact absurd hj (List.not_mem_nil j)
  | cons a l ih =>
    intro hnd hj hoff
    rw [List.countP_cons, List.countP_cons]
    by_cases ha : a = j
    · subst ha
      have hnotin : a ∉ l := (List.nodup_cons.mp hnd).1
      have hcongr : l.countP p = l.countP q := by
        apply List.countP_congr
        intro i hi
        rw [hoff i (List.mem_cons_of_mem _ hi) (fun he => hnotin (he ▸ hi))]
      rw [hcongr]
      omega
    · have hj2 : j ∈ l := (List.mem_cons.mp hj).resolve_left (fun he => ha he.symm)
      have hpa : p a = q a := hoff a (List.mem_cons_self _ _) ha
      have := ih (List.nodup_cons.mp hnd).2 hj2
        (fun i hi hne => hoff i (List.mem_cons_of_mem _ hi) hne)
      rw [hpa]
      omega

theorem count_flatMap (x : Nat) : ∀ (l : List Nat) (f : Nat → List Nat),
    (l.flatMap f).count x = (l.map fun a => (f a).count x).sum := by
  intro l
  induction l with
  | nil => intro f; rfl
  | cons a l ih =>
    intro f
    rw [List.flatMap_cons, List.count_append, List.map_cons, List.sum_cons, ih]

theorem flatMap_congr {l : List Nat} {f g : Nat → List Nat}
    (h : ∀ a ∈ l, f a = g a) : l.flatMap f = l.flatMap g := by
  induction l with
  | nil => rfl
  | cons a l ih =>
    rw [List.flatMap_cons, List.flatMap_cons, h a (List.mem_cons_self _ _),
      ih fun b hb => h b (List.mem_cons_of_mem _ hb)]

theorem sum_map_update (g g2 : Nat → Nat) (T : Nat) : ∀ (l : List Nat),
    l.Nodup → T ∈ l → (∀ q ∈ l, q ≠ T → g2 q = g q) →
    (l.map g2).sum + g T = (l.map g).sum + g2 T := by
  intro l
  induction l with
  | nil => intro _ hT; exact absurd hT (List.not_mem_nil T)
  | cons a l ih =>
    intro hnd hT hoff
    rw [List.map_cons, List.map_cons, List.sum_cons, List.sum_cons]
    by_cases ha : a = T
    · subst ha
      have hnotin : a ∉ l := (List.nodup_cons.mp hnd).1
      have hcongr : l.map g2 = l.map g := by
        apply List.map_congr_left
        intro q hq
        exact hoff q (List.mem_cons_of_mem _ hq) (fun he => hnotin (he ▸ hq))
      rw [hcongr]
      omega
    · have hT2 : T ∈ l := (List.mem_cons.mp hT).resolve_left (fun he => ha he.symm)
      have hga : g2 a = g a := hoff a (List.mem_cons_self _ _) ha
      have := ih (List.nodup_cons.mp hnd).2 hT2
        (fun q hq hne => hoff q (List.mem_cons_of_mem _ hq) hne)
      rw [hga]
      omega

theorem ptrWord_of_parts (w : Nat) (hv : w &&& PTE_VALID ≠ 0)
    (hp : w &&& (PTE_READ ||| PTE_WRITE ||| PTE_EXECUTE) = 0) :
    w &&& PTE_RWXV = PTE_VALID := by
  have h1 : w &&& 1 ≠ 0 := hv
  have h14 : w &&& 14 = 0 := hp
  have hmod : w % 2 = 1 := by
    rw [Nat.and_one_is_mod] at h1
    omega
  show w &&& 15 = 1
  have e1 : (15 : Nat) = 14 ||| 1 := by decide
  rw [e1, Nat.and_comm, Nat.and_distrib_right, Nat.and_comm 14 w, h14,
    Nat.and_comm 1 w, Nat.and_one_is_mod, hmod]
  rfl

theorem parts_of_ptrWord (w : Nat) (h : w &&& PTE_RWXV = PTE_VALID) :
    w &&& PTE_VALID ≠ 0 ∧ w &&& (PTE_READ ||| PTE_WRITE ||| PTE_EXECUTE) = 0 := by
  have h15 : w &&& 15 = 1 := h
  constructor
  · show w &&& 1 ≠ 0
    have e1 : (15 : Nat) &&& 1 = 1 := by decide
    rw [← e1, ← Nat.and_assoc, h15]
    decide
  · show w &&& 14 = 0
    have e1 : (15 : Nat) &&& 14 = 14 := by decide
    rw [← e1, ← Nat.and_assoc, h15]
    decide

theorem count_map_countP (f : Nat → Nat) (x : Nat) : ∀ l : List Nat,
    ((l.map f).count x) = l.countP fun i => f i == x := by
  intro l
  induction l with
  | nil => rfl
  | cons a l ih =>
    rw [List.map_cons, List.count_cons, List.countP_cons, ih]

theorem count_childrenOf (m : Nat → Nat) (p x : Nat) :
    (childrenOf m p).count x =
      (List.range 512).countP fun i => isPtrSlot m p i && (childAt m p i == x) := by
  unfold childrenOf
  rw [count_map_countP]
  rw [List.countP_filter]
  apply List.countP_congr
  intro i _
  rw [Bool.and_comm]

theorem count_childrenOf_write (m : Nat → Nat) (p j v x : Nat) (hj : j < 512) :
    (childrenOf (writeWord m (p + j * 8) v) p).count x
      + (if isPtrSlot m p j && (childAt m p j == x) then 1 else 0)
    = (childrenOf m p).count x
      + (if isPtrSlot (writeWord m (p + j * 8) v) p j
            && (childAt (writeWord m (p + j * 8) v) p j == x) then 1 else 0) := by
  rw [count_childrenOf, count_childrenOf]
  apply countP_update _ _ j (List.range 512) (List.nodup_range 512) (List.mem_range.mpr hj)
  intro i _ hne
  unfold isPtrSlot childAt slotWord
  rw [writeWord_other _ _ _ _ (by omega : p + i * 8 ≠ p + j * 8)]

theorem rootsList_eq_of_roots (pt pt2 : PageTables)
    (h : pt2.root_page_tables = pt.root_page_tables) : rootsList pt2 = rootsList pt := by
  unfold rootsList PageTables.root_pa
  rw [h]

theorem level1Tables_congr (pt pt2 : PageTables)
    (hroots : pt2.root_page_tables = pt.root_page_tables)
    (hch : ∀ w ∈ rootsList pt, childrenOf pt2.mem w = childrenOf pt.mem w) :
    level1Tables pt2 = level1Tables pt := by
  unfold level1Tables
  rw [rootsList_eq_of_roots pt pt2 hroots]
  exact flatMap_congr hch

theorem level2Tables_congr (pt pt2 : PageTables)
    (h1 : level1Tables pt2 = level1Tables pt)
    (hch : ∀ q ∈ level1Tables pt, childrenOf pt2.mem q = childrenOf pt.mem q) :
    level2Tables pt2 = level2Tables pt := by
  unfold level2Tables
  rw [h1]
  exact flatMap_congr hch

theorem mem_owned_roots (pt : PageTables) (freeL : List Nat) (p : Nat)
    (h : p ∈ rootsList pt) : p ∈ ownedPages pt freeL := by
  unfold ownedPages
  simp only [List.mem_append]
  exact Or.inl (Or.inl (Or.inl h))

theorem mem_owned_level1 (pt : PageTables) (freeL : List Nat) (p : Nat)
    (h : p ∈ level1Tables pt) : p ∈ ownedPages pt freeL := by
  unfold ownedPages
  simp only [List.mem_append]
  exact Or.inl (Or.inl (Or.inr h))

theorem mem_owned_level2 (pt : PageTables) (freeL : List Nat) (p : Nat)
    (h : p ∈ level2Tables pt) : p ∈ ownedPages pt freeL := by
  unfold ownedPages
  simp only [List.mem_append]
  exact Or.inl (Or.inr h)

theorem mem_owned_free (pt : PageTables) (freeL : List Nat) (p : Nat)
    (h : p ∈ freeL) : p ∈ ownedPages pt freeL := by
  unfold ownedPages
  simp only [List.mem_append]
  exact Or.inr h

theorem count_owned (pt : PageTables) (freeL : List Nat) (x : Nat) :
    (ownedPages pt freeL).count x = (rootsList pt).count x + (level1Tables pt).count x +
      (level2Tables pt).count x + freeL.count x := by
  unfold ownedPages
  rw [List.count_append, List.count_append, List.count_append]

theorem freeChain_head_lt (m : Nat → Nat) (h l) (hc : freeChain m h l)
    (hOK : ∀ q ∈ l, pageOK q) : h < twoPow64 := by
  rcases freeChain_head_cases m h l hc with ⟨hnull, _⟩ | ⟨l2, hl, _, _⟩
  · rw [hnull]
    norm_num [NULL_PAGE_PTR, twoPow64]
  · have := (hOK h (hl ▸ List.mem_cons_self _ _)).2
    have hP : PAGE_SIZE = 4096 := rfl
    omega

/-- C5 preservation, `free_page`: pushing an unowned real page onto the free
list keeps single ownership, the page becoming the new list head. -/
theorem singleOwnership_free_page (pt : PageTables) (freeL : List Nat) (p : Nat)
    (hInv : singleOwnership pt freeL) (hp : pageOK p)
    (hnotin : p ∉ ownedPages pt freeL) :
    singleOwnership (pt.free_page p) (p :: freeL) := by
  obtain ⟨hchain, hOK, hcount, hdepth⟩ := hInv
  have hmem2 : (pt.free_page p).mem = writeWord pt.mem p pt.free_list_head := rfl
  have hpnull : p ≠ NULL_PAGE_PTR := by
    intro he
    have h1 := hp.1
    rw [he] at h1
    exact absurd h1 (by decide)
  have howned_ne : ∀ q ∈ ownedPages pt freeL, q ≠ p := fun q hq he => hnotin (he ▸ hq)
  have hch : ∀ q ∈ ownedPages pt freeL, childrenOf (pt.free_page p).mem q =
      childrenOf pt.mem q := by
    intro q hq
    rw [hmem2]
    apply childrenOf_write_other
    intro i hi
    have h1 := pageOK_slot_ne p q 0 i hp.1 (hOK q hq).1 (howned_ne q hq).symm
      (by omega) hi
    omega
  have hl1 : level1Tables (pt.free_page p) = level1Tables pt :=
    level1Tables_congr pt _ rfl fun w hw => hch w (mem_owned_roots pt freeL w hw)
  have hl2 : level2Tables (pt.free_page p) = level2Tables pt :=
    level2Tables_congr pt _ hl1 fun q hq => hch q (mem_owned_level1 pt freeL q hq)
  have hroots_eq : rootsList (pt.free_page p) = rootsList pt := rfl
  have howned' : ownedPages (pt.free_page p) (p :: freeL) =
      rootsList pt ++ level1Tables pt ++ level2Tables pt ++ (p :: freeL) := by
    unfold ownedPages
    rw [hroots_eq, hl1, hl2]
  have hmem_iff : ∀ q, q ∈ ownedPages (pt.free_page p) (p :: freeL) →
      q = p ∨ q ∈ ownedPages pt freeL := by
    intro q hq
    rw [howned'] at hq
    rcases List.mem_append.mp hq with h1 | h2
    · exact Or.inr (List.mem_append.mpr (Or.inl h1))
    · rcases List.mem_cons.mp h2 with he | hf
      · exact Or.inl he
      · exact Or.inr (List.mem_append.mpr (Or.inr hf))
  refine ⟨?_, ?_, ?_, ?_⟩
  · show freeChain (pt.free_page p).mem (pt.free_page p).free_list_head (p :: freeL)
    rw [hmem2]
    show freeChain (writeWord pt.mem p pt.free_list_head) p (p :: freeL)
    refine freeChain.cons hpnull ?_
    have hwp : writeWord pt.mem p pt.free_list_head p = pt.free_list_head :=
      writeWord_same _ _ _
    have hheadlt : pt.free_list_head < twoPow64 :=
      freeChain_head_lt _ _ _ hchain fun q hq => hOK q (mem_owned_free pt freeL q hq)
    rw [hwp, Nat.mod_eq_of_lt hheadlt]
    exact freeChain_congr pt.mem _ _ _ hchain fun q hq =>
      (writeWord_other _ _ _ _ (howned_ne q (mem_owned_free pt freeL q hq))).symm
  · intro q hq
    rcases hmem_iff q hq with hqp | hqo
    · exact hqp ▸ hp
    · exact hOK q hqo
  · intro x
    rw [howned', List.count_append, List.count_append, List.count_append,
      List.count_cons]
    have hold := hcount x
    rw [count_owned] at hold
    by_cases hx : x = p
    · have hzero : (ownedPages pt freeL).count p = 0 :=
        List.count_eq_zero.mpr hnotin
      rw [count_owned] at hzero
      rw [hx]
      simp only [beq_self_eq_true, if_true]
      omega
    · have hne : ¬ (p == x) := by
        simp only [beq_iff_eq]
        exact fun he => hx he.symm
      rw [if_neg hne]
      omega
  · intro q hq
    rw [hl2] at hq
    rw [hch q (mem_owned_level2 pt freeL q hq)]
    exact hdepth q hq

set_option maxRecDepth 8192 in
/-- C5 preservation, `alloc_page`: popping the free-list head keeps single
ownership of everything else; the popped page leaves the free list, is
wholly zeroed (so it references nothing), and is owned by nobody until the
caller installs it. -/
theorem singleOwnership_alloc_page (pt : PageTables) (freeL : List Nat)
    (hInv : singleOwnership pt freeL) (hne : pt.free_list_head ≠ NULL_PAGE_PTR) :
    ∃ pt1 freeL1, freeL = pt.free_list_head :: freeL1 ∧
      pt.alloc_page = some (pt.free_list_head, pt1) ∧
      singleOwnership pt1 freeL1 ∧
      pt.free_list_head ∉ ownedPages pt1 freeL1 ∧
      pageOK pt.free_list_head ∧
      (∀ i, i < 512 → pt1.mem (pt.free_list_head + i * 8) = 0) ∧
      childrenOf pt1.mem pt.free_list_head = [] ∧
      pt1.root_page_tables = pt.root_page_tables ∧
      level1Tables pt1 = level1Tables pt ∧
      level2Tables pt1 = level2Tables pt ∧
      (∀ q i, pageOK q → q ≠ pt.free_list_head → i < 512 →
        pt1.mem (q + i * 8) = pt.mem (q + i * 8)) := by
  obtain ⟨hchain, hOK, hcount, hdepth⟩ := hInv
  rcases freeChain_head_cases pt.mem pt.free_list_head freeL hchain with
    ⟨hnull, _⟩ | ⟨freeL1, hfl, _, htail⟩
  · exact absurd hnull hne
  have hAfree : pt.free_list_head ∈ freeL := hfl ▸ List.mem_cons_self _ _
  have hAOK : pageOK pt.free_list_head := hOK _ (mem_owned_free pt freeL _ hAfree)
  have hAcount := hcount pt.free_list_head
  rw [count_owned] at hAcount
  have hApos : 0 < freeL.count pt.free_list_head := by
    rw [hfl, List.count_cons]
    simp only [beq_self_eq_true, if_true]
    omega
  have hAroots : pt.free_list_head ∉ rootsList pt :=
    List.count_eq_zero.mp (by omega)
  have hAl1 : pt.free_list_head ∉ level1Tables pt :=
    List.count_eq_zero.mp (by omega)
  have hAl2 : pt.free_list_head ∉ level2Tables pt :=
    List.count_eq_zero.mp (by omega)
  have hAfl1 : pt.free_list_head ∉ freeL1 := by
    have h1 : freeL.count pt.free_list_head = freeL1.count pt.free_list_head + 1 := by
      rw [hfl, List.count_cons]
      simp only [beq_self_eq_true, if_true]
    exact List.count_eq_zero.mp (by omega)
  have hc : allocZeroCount pt.free_list_head = 512 := by
    unfold allocZeroCount
    rw [if_pos hAOK.2]
  set pt1 : PageTables :=
    { mem := zeroSlots pt.mem pt.free_list_head (allocZeroCount pt.free_list_head),
      root_page_tables := pt.root_page_tables,
      free_list_head := pt.mem pt.free_list_head % twoPow64 } with hpt1
  have hmem1 : ∀ a, pt1.mem a = zeroSlots pt.mem pt.free_list_head 512 a := by
    intro a
    show zeroSlots pt.mem pt.free_list_head (allocZeroCount pt.free_list_head) a = _
    rw [hc]
  have hframe : ∀ q, pageOK q → q ≠ pt.free_list_head → ∀ i, i < 512 →
      pt1.mem (q + i * 8) = pt.mem (q + i * 8) := by
    intro q hq hqA i hi
    rw [hmem1]
    apply zeroSlots_miss
    intro k hk
    exact Ne.symm (pageOK_slot_ne pt.free_list_head q k i hAOK.1 hq.1
      (Ne.symm hqA) hk hi)
  have hframe0 : ∀ q, pageOK q → q ≠ pt.free_list_head → pt1.mem q = pt.mem q := by
    intro q hq hqA
    have := hframe q hq hqA 0 (by omega)
    simpa using this
  have hch : ∀ q, pageOK q → q ≠ pt.free_list_head →
      childrenOf pt1.mem q = childrenOf pt.mem q := by
    intro q hq hqA
    exact childrenOf_congr _ _ q fun i hi => hframe q hq hqA i hi
  have hl1 : level1Tables pt1 = level1Tables pt :=
    level1Tables_congr pt pt1 rfl fun w hw =>
      hch w (hOK w (mem_owned_roots pt freeL w hw)) fun he => hAroots (he ▸ hw)
  have hl2 : level2Tables pt1 = level2Tables pt :=
    level2Tables_congr pt pt1 hl1 fun q hq =>
      hch q (hOK q (mem_owned_level1 pt freeL q hq)) fun he => hAl1 (he ▸ hq)
  have hroots_eq : rootsList pt1 = rootsList pt := rootsList_eq_of_roots pt pt1 rfl
  have howned1 : ownedPages pt1 freeL1 =
      rootsList pt ++ level1Tables pt ++ level2Tables pt ++ freeL1 := by
    unfold ownedPages
    rw [hroots_eq, hl1, hl2]
  have hzeroed : ∀ i, i < 512 → pt1.mem (pt.free_list_head + i * 8) = 0 := by
    intro i hi
    rw [hmem1]
    exact zeroSlots_hit _ _ _ _ hi
  have hcountnew : ∀ x, (ownedPages pt1 freeL1).count x ≤ 1 := by
    intro x
    have hold := hcount x
    rw [count_owned] at hold
    have hsplit : freeL.count x = freeL1.count x + (if pt.free_list_head == x then 1 else 0) := by
      rw [hfl, List.count_cons]
    rw [howned1, List.count_append, List.count_append, List.count_append]
    omega
  have hnotin1 : pt.free_list_head ∉ ownedPages pt1 freeL1 := by
    rw [howned1]
    intro hq
    rcases List.mem_append.mp hq with h1 | h2
    · rcases List.mem_append.mp h1 with h3 | h4
      · rcases List.mem_append.mp h3 with h5 | h6
        · exact hAroots h5
        · exact hAl1 h6
      · exact hAl2 h4
    · exact hAfl1 h2
  have hchildA : childrenOf pt1.mem pt.free_list_head = [] := by
    rw [childrenOf_eq_nil_iff]
    intro i hi
    unfold isPtrSlot slotWord
    rw [hzeroed i hi]
    decide
  refine ⟨pt1, freeL1, hfl, ?_, ⟨?_, ?_, hcountnew, ?_⟩, hnotin1, hAOK, hzeroed,
    hchildA, rfl, hl1, hl2, fun q i hq hqA hi => hframe q hq hqA i hi⟩
  · rw [alloc_page_spec pt hne]
  · show freeChain pt1.mem (pt.mem pt.free_list_head % twoPow64) freeL1
    refine freeChain_congr pt.mem _ _ _ htail ?_
    intro q hq
    have hqOK : pageOK q :=
      hOK q (mem_owned_free pt freeL q (hfl ▸ List.mem_cons_of_mem _ hq))
    exact (hframe0 q hqOK fun he => hAfl1 (he ▸ hq)).symm
  · intro q hq
    rw [howned1] at hq
    rcases List.mem_append.mp hq with h1 | h2
    · rcases List.mem_append.mp h1 with h3 | h4
      · rcases List.mem_append.mp h3 with h5 | h6
        · exact hOK q (mem_owned_roots pt freeL q h5)
        · exact hOK q (mem_owned_level1 pt freeL q h6)
      · exact hOK q (mem_owned_level2 pt freeL q h4)
    · exact hOK q (mem_owned_free pt freeL q (hfl ▸ List.mem_cons_of_mem _ h2))
  · intro q hq
    rw [hl2] at hq
    have hqOK : pageOK q := hOK q (mem_owned_level2 pt freeL q hq)
    rw [hch q hqOK fun he => hAl2 (he ▸ hq)]
    exact hdepth q hq

theorem one_le_count_of_mem (a : Nat) : ∀ l : List Nat, a ∈ l → 1 ≤ l.count a := by
  intro l
  induction l with
  | nil => intro h; exact absurd h (List.not_mem_nil a)
  | cons b l ih =>
    intro h
    rw [List.count_cons]
    rcases List.mem_cons.mp h with he | hm
    · have hb : (b == a) = true := beq_iff_eq.mpr he.symm
      rw [hb, if_pos rfl]
      omega
    · have := ih hm
      omega

theorem mem_of_one_le_count (a : Nat) (l : List Nat) (h : 1 ≤ l.count a) : a ∈ l := by
  by_contra hn
  rw [List.count_eq_zero.mpr hn] at h
  omega

theorem owned_roots_nodup (pt : PageTables) (freeL : List Nat)
    (hcount : ∀ x, (ownedPages pt freeL).count x ≤ 1) : (rootsList pt).Nodup := by
  rw [List.nodup_iff_count_le_one]
  intro x
  have := hcount x
  rw [count_owned] at this
  omega

theorem owned_level1_nodup (pt : PageTables) (freeL : List Nat)
    (hcount : ∀ x, (ownedPages pt freeL).count x ≤ 1) : (level1Tables pt).Nodup := by
  rw [List.nodup_iff_count_le_one]
  intro x
  have := hcount x
  rw [count_owned] at this
  omega

theorem owned_roots_level1_ne (pt : PageTables) (freeL : List Nat)
    (hcount : ∀ x, (ownedPages pt freeL).count x ≤ 1) (T q : Nat)
    (hT : T ∈ rootsList pt) (hq : q ∈ level1Tables pt) : T ≠ q := by
  intro he
  have h1 := one_le_count_of_mem T _ hT
  have h2 := one_le_count_of_mem T _ (he ▸ hq)
  have := hcount T
  rw [count_owned] at this
  omega

theorem owned_roots_level2_ne (pt : PageTables) (freeL : List Nat)
    (hcount : ∀ x, (ownedPages pt freeL).count x ≤ 1) (T q : Nat)
    (hT : T ∈ rootsList pt) (hq : q ∈ level2Tables pt) : T ≠ q := by
  intro he
  have h1 := one_le_count_of_mem T _ hT
  have h2 := one_le_count_of_mem T _ (he ▸ hq)
  have := hcount T
  rw [count_owned] at this
  omega

theorem owned_level1_level2_ne (pt : PageTables) (freeL : List Nat)
    (hcount : ∀ x, (ownedPages pt freeL).count x ≤ 1) (T q : Nat)
    (hT : T ∈ level1Tables pt) (hq : q ∈ level2Tables pt) : T ≠ q := by
  intro he
  have h1 := one_le_count_of_mem T _ hT
  have h2 := one_le_count_of_mem T _ (he ▸ hq)
  have := hcount T
  rw [count_owned] at this
  omega

theorem owned_table_free_ne (pt : PageTables) (freeL : List Nat)
    (hcount : ∀ x, (ownedPages pt freeL).count x ≤ 1) (T q : Nat)
    (hT : T ∈ rootsList pt ∨ T ∈ level1Tables pt ∨ T ∈ level2Tables pt)
    (hq : q ∈ freeL) : T ≠ q := by
  intro he
  have h2 := one_le_count_of_mem T _ (he ▸ hq)
  have := hcount T
  rw [count_owned] at this
  rcases hT with h | h | h <;>
    exact absurd this (by have h1 := one_le_count_of_mem T _ h; omega)

/-- C5 preservation, pointer installation: writing a pointer entry whose
target is a fresh, empty, unowned page `A` into a previously non-pointer
slot of a live table keeps single ownership; `A` becomes a table of the
next level, referenced exactly once. -/
theorem singleOwnership_install (pt : PageTables) (freeL : List Nat) (T j v A : Nat)
    (hInv : singleOwnership pt freeL)
    (hT : T ∈ rootsList pt ∨ T ∈ level1Tables pt)
    (hj : j < 512)
    (hnold : isPtrSlot pt.mem T j = false)
    (hA : pageOK A) (hAnotin : A ∉ ownedPages pt freeL)
    (hAchild : childrenOf pt.mem A = [])
    (hvptr : (v % twoPow64) &&& PTE_RWXV = PTE_VALID)
    (hvchild : pteChild (v % twoPow64) = A) :
    singleOwnership (pt.set_nonleaf_pte (T + j * 8) v) freeL ∧
    (T ∈ rootsList pt → A ∈ level1Tables (pt.set_nonleaf_pte (T + j * 8) v)) ∧
    (T ∈ level1Tables pt → A ∈ level2Tables (pt.set_nonleaf_pte (T + j * 8) v)) ∧
    childrenOf (pt.set_nonleaf_pte (T + j * 8) v).mem A = [] ∧
    (pt.set_nonleaf_pte (T + j * 8) v).root_page_tables = pt.root_page_tables := by
  obtain ⟨hchain, hOK, hcount, hdepth⟩ := hInv
  have hm2 : (pt.set_nonleaf_pte (T + j * 8) v).mem = writeWord pt.mem (T + j * 8) v := rfl
  have hTowned : T ∈ ownedPages pt freeL :=
    hT.elim (mem_owned_roots pt freeL T) (mem_owned_level1 pt freeL T)
  have hTOK : pageOK T := hOK T hTowned
  have hTA : T ≠ A := fun he => hAnotin (he ▸ hTowned)
  have hframe : ∀ q, pageOK q → q ≠ T → ∀ i, i < 512 →
      writeWord pt.mem (T + j * 8) v (q + i * 8) = pt.mem (q + i * 8) := by
    intro q hq hqT i hi
    exact writeWord_other _ _ _ _ (pageOK_slot_ne q T i j hq.1 hTOK.1 hqT hi hj)
  have hch : ∀ q, pageOK q → q ≠ T →
      childrenOf (writeWord pt.mem (T + j * 8) v) q = childrenOf pt.mem q :=
    fun q hq hqT => childrenOf_congr _ _ q fun i hi => hframe q hq hqT i hi
  have hslotw : slotWord (writeWord pt.mem (T + j * 8) v) T j = v % twoPow64 := by
    unfold slotWord
    rw [writeWord_same]
  have hptr2 : isPtrSlot (writeWord pt.mem (T + j * 8) v) T j = true := by
    unfold isPtrSlot
    rw [hslotw]
    exact beq_iff_eq.mpr hvptr
  have hchildA2 : childAt (writeWord pt.mem (T + j * 8) v) T j = A := by
    unfold childAt
    rw [hslotw]
    exact hvchild
  have hAch2 : childrenOf (writeWord pt.mem (T + j * 8) v) A = [] := by
    rw [hch A hA fun he => hTA he.symm]
    exact hAchild
  have hcntT : ∀ x, (childrenOf (writeWord pt.mem (T + j * 8) v) T).count x =
      (childrenOf pt.mem T).count x + (if A == x then 1 else 0) := by
    intro x
    have h := count_childrenOf_write pt.mem T j v x hj
    rw [hnold, hptr2, hchildA2] at h
    rw [Bool.false_and, Bool.true_and] at h
    have e3 : (if (false = true) then (1:Nat) else 0) = 0 := rfl
    rw [e3] at h
    omega
  have hchainframe : freeChain (writeWord pt.mem (T + j * 8) v)
      pt.free_list_head freeL := by
    refine freeChain_congr pt.mem _ _ _ hchain ?_
    intro q hq
    have hqOK : pageOK q := hOK q (mem_owned_free pt freeL q hq)
    have hqT : q ≠ T := by
      intro he
      exact owned_table_free_ne pt freeL hcount T q
        (hT.elim Or.inl fun h2 => Or.inr (Or.inl h2)) hq (he ▸ rfl)
    have := hframe q hqOK hqT 0 (by omega)
    simpa using this.symm
  rcases hT with hTr | hTl1
  · -- T is a root: A joins the mid level
    have hroots2 : rootsList (pt.set_nonleaf_pte (T + j * 8) v) = rootsList pt :=
      rootsList_eq_of_roots pt _ rfl
    have hl1count : ∀ x, (level1Tables (pt.set_nonleaf_pte (T + j * 8) v)).count x =
        (level1Tables pt).count x + (if A == x then 1 else 0) := by
      intro x
      unfold level1Tables
      rw [hroots2, hm2, count_flatMap, count_flatMap]
      have hupd := sum_map_update (fun w => (childrenOf pt.mem w).count x)
        (fun w => (childrenOf (writeWord pt.mem (T + j * 8) v) w).count x) T
        (rootsList pt) (owned_roots_nodup pt freeL hcount) hTr ?_
      · simp only [hcntT x] at hupd
        omega
      · intro q hq hqT
        simp only [hch q (hOK q (mem_owned_roots pt freeL q hq)) hqT]
    have hperm : List.Perm (level1Tables (pt.set_nonleaf_pte (T + j * 8) v))
        (A :: level1Tables pt) := by
      rw [List.perm_iff_count]
      intro y
      rw [hl1count y, List.count_cons]
    have hl2count : ∀ x, (level2Tables (pt.set_nonleaf_pte (T + j * 8) v)).count x =
        (level2Tables pt).count x := by
      intro x
      unfold level2Tables
      rw [count_flatMap, count_flatMap]
      have hmapperm := hperm.map
        fun q => (childrenOf (pt.set_nonleaf_pte (T + j * 8) v).mem q).count x
      rw [hmapperm.sum_eq, List.map_cons, List.sum_cons]
      have hA0 : (childrenOf (pt.set_nonleaf_pte (T + j * 8) v).mem A).count x = 0 := by
        rw [hm2, hAch2]
        rfl
      rw [hA0]
      have hmapeq : (level1Tables pt).map
          (fun q => (childrenOf (pt.set_nonleaf_pte (T + j * 8) v).mem q).count x) =
          (level1Tables pt).map fun q => (childrenOf pt.mem q).count x := by
        apply List.map_congr_left
        intro q hq
        rw [hm2, hch q (hOK q (mem_owned_level1 pt freeL q hq))
          (owned_roots_level1_ne pt freeL hcount T q hTr hq).symm]
      rw [hmapeq]
      omega
    have hcount2 : ∀ x, (ownedPages (pt.set_nonleaf_pte (T + j * 8) v) freeL).count x ≤ 1 := by
      intro x
      rw [count_owned, hroots2, hl1count, hl2count]
      have hold := hcount x
      rw [count_owned] at hold
      by_cases hx : x = A
      · have hzero : (ownedPages pt freeL).count A = 0 := List.count_eq_zero.mpr hAnotin
        rw [count_owned] at hzero
        subst hx
        simp only [beq_self_eq_true, if_true]
        omega
      · rw [if_neg fun he => hx (beq_iff_eq.mp he).symm]
        omega
    refine ⟨⟨?_, ?_, hcount2, ?_⟩, ?_, ?_, ?_, rfl⟩
    · show freeChain (pt.set_nonleaf_pte (T + j * 8) v).mem pt.free_list_head freeL
      rw [hm2]
      exact hchainframe
    · intro q hq
      have hq1 := one_le_count_of_mem q _ hq
      rw [count_owned, hroots2, hl1count, hl2count] at hq1
      have hold := hcount q
      rw [count_owned] at hold
      by_cases hqA : q = A
      · exact hqA ▸ hA
      · have hql : (if A == q then 1 else 0) = 0 :=
          if_neg fun he => hqA (beq_iff_eq.mp he).symm
        rw [hql] at hq1
        exact hOK q (mem_of_one_le_count q _ (by rw [count_owned]; omega))
    · intro q hq
      have hq1 := one_le_count_of_mem q _ hq
      rw [hl2count] at hq1
      have hqold : q ∈ level2Tables pt := mem_of_one_le_count q _ hq1
      have hqT : q ≠ T := (owned_roots_level2_ne pt freeL hcount T q hTr hqold).symm
      rw [hm2, hch q (hOK q (mem_owned_level2 pt freeL q hqold)) hqT]
      exact hdepth q hqold
    · intro _
      have : A ∈ childrenOf (writeWord pt.mem (T + j * 8) v) T := by
        rw [← hchildA2]
        exact childAt_mem_childrenOf _ T j hj hptr2
      unfold level1Tables
      rw [hroots2, hm2]
      exact List.mem_flatMap.mpr ⟨T, hTr, this⟩
    · intro hTl1
      exact absurd (owned_roots_level1_ne pt freeL hcount T T hTr hTl1) fun h => h rfl
    · rw [hm2]
      exact hAch2
  · -- T is a mid-level table: A joins the leaf level
    have hroots2 : rootsList (pt.set_nonleaf_pte (T + j * 8) v) = rootsList pt :=
      rootsList_eq_of_roots pt _ rfl
    have hl1eq : level1Tables (pt.set_nonleaf_pte (T + j * 8) v) = level1Tables pt := by
      refine level1Tables_congr pt (pt.set_nonleaf_pte (T + j * 8) v) rfl ?_
      intro w hw
      rw [hm2]
      exact hch w (hOK w (mem_owned_roots pt freeL w hw))
        (owned_roots_level1_ne pt freeL hcount w T hw hTl1)
    have hl2count : ∀ x, (level2Tables (pt.set_nonleaf_pte (T + j * 8) v)).count x =
        (level2Tables pt).count x + (if A == x then 1 else 0) := by
      intro x
      unfold level2Tables
      rw [hl1eq, hm2, count_flatMap, count_flatMap]
      have hupd := sum_map_update (fun w => (childrenOf pt.mem w).count x)
        (fun w => (childrenOf (writeWord pt.mem (T + j * 8) v) w).count x) T
        (level1Tables pt) (owned_level1_nodup pt freeL hcount) hTl1 ?_
      · simp only [hcntT x] at hupd
        omega
      · intro q hq hqT
        simp only [hch q (hOK q (mem_owned_level1 pt freeL q hq)) hqT]
    have hcount2 : ∀ x, (ownedPages (pt.set_nonleaf_pte (T + j * 8) v) freeL).count x ≤ 1 := by
      intro x
      rw [count_owned, hroots2, hl1eq, hl2count]
      have hold := hcount x
      rw [count_owned] at hold
      by_cases hx : x = A
      · have hzero : (ownedPages pt freeL).count A = 0 := List.count_eq_zero.mpr hAnotin
        rw [count_owned] at hzero
        subst hx
        simp only [beq_self_eq_true, if_true]
        omega
      · rw [if_neg fun he => hx (beq_iff_eq.mp he).symm]
        omega
    refine ⟨⟨?_, ?_, hcount2, ?_⟩, ?_, ?_, ?_, rfl⟩
    · show freeChain (pt.set_nonleaf_pte (T + j * 8) v).mem pt.free_list_head freeL
      rw [hm2]
      exact hchainframe
    · intro q hq
      have hq1 := one_le_count_of_mem q _ hq
      rw [count_owned, hroots2, hl1eq, hl2count] at hq1
      have hold := hcount q
      rw [count_owned] at hold
      by_cases hqA : q = A
      · exact hqA ▸ hA
      · have hql : (if A == q then 1 else 0) = 0 :=
          if_neg fun he => hqA (beq_iff_eq.mp he).symm
        rw [hql] at hq1
        exact hOK q (mem_of_one_le_count q _ (by rw [count_owned]; omega))
    · intro q hq
      have hq1 := one_le_count_of_mem q _ hq
      rw [hl2count] at hq1
      by_cases hqA : q = A
      · rw [hm2, hqA]
        exact hAch2
      · have hql : (if A == q then 1 else 0) = 0 :=
          if_neg fun he => hqA (beq_iff_eq.mp he).symm
        rw [hql] at hq1
        have hqold : q ∈ level2Tables pt := mem_of_one_le_count q _ (by omega)
        have hqT : q ≠ T := (owned_level1_level2_ne pt freeL hcount T q hTl1 hqold).symm
        rw [hm2, hch q (hOK q (mem_owned_level2 pt freeL q hqold)) hqT]
        exact hdepth q hqold
    · intro hTr
      exact absurd (owned_roots_level1_ne pt freeL hcount T T hTr hTl1) fun h => h rfl
    · intro _
      have hmemc : A ∈ childrenOf (writeWord pt.mem (T + j * 8) v) T := by
        rw [← hchildA2]
        exact childAt_mem_childrenOf _ T j hj hptr2
      unfold level2Tables
      rw [hl1eq, hm2]
      exact List.mem_flatMap.mpr ⟨T, hTl1, hmemc⟩
    · rw [hm2]
      exact hAch2
